import Mathlib

/-!
Verification development for the inventory-projection demand-forecasting core
(`src/lib/aggregator.ts`, `src/lib/metrics.ts`, `src/lib/forecasting.ts`).

Numbers: the TypeScript code computes with IEEE doubles; the embedding uses `ℚ`
so that every arithmetic fact is exact.  Where the code divides, and a zero
divisor would produce a non-finite JS number (`Infinity`/`NaN`), the embedding
uses an `Option ℚ`-valued checked division (`fdivQ`), `none` standing for the
non-finite result.  Square roots (`Math.sqrt`) are irrational in general, so
quantities of the form `√x` are represented by their radicand `x` (the code's
`standardError` is carried as `standardErrorSq` with `standardError = √standardErrorSq`);
every claim about such a quantity only needs `√x = 0 ↔ x = 0`, `√x ≥ 0`, or a
comparison of squares, so nothing is lost.

Dates: JS `Date` values are embedded as civil triples (`getFullYear`,
`getMonth` 0–11, `getDate` 1–31) of the proleptic Gregorian calendar;
`dayNumber` is the count of days since 1970-01-01, mirroring the timestamp
(order records carry calendar dates with no time component, per the spec).
`Date` comparison and `toISOString`-keying in the source are by timestamp, so
the embedding compares and keys by `dayNumber`.
-/

namespace InvProj


/-- A calendar date as the civil triple a JS `Date` exposes:
`year` (`getFullYear`), `month` (`getMonth`, 0–11), `day` (`getDate`, 1–31). -/
structure Date where
  year : Int
  month : Int
  day : Int
deriving DecidableEq, Repr, Inhabited


/-- 1 on proleptic-Gregorian leap years, 0 otherwise. -/
def leapDay (y : Int) : Int :=
  if (y % 4 = 0 ∧ ¬ y % 100 = 0) ∨ y % 400 = 0 then 1 else 0


/-- Number of days of month `m` (0-based, as in `getMonth`) of year `y`. -/
def daysInMonth (y m : Int) : Int :=
  if m = 1 then 28 + leapDay y
  else if m = 3 ∨ m = 5 ∨ m = 8 ∨ m = 10 then 30
  else 31


/-- Day number (days since 1970-01-01) of the first day of month `m` of year
`y`; the standard closed form for civil-from-days with a March-based year. -/
def yShift (y m : Int) : Int := if m < 2 then y - 1 else y


def monthFirstDN (y m : Int) : Int :=
  365 * yShift y m + yShift y m / 4 - yShift y m / 100 + yShift y m / 400 +
    (153 * ((m + 10) % 12) + 2) / 5 - 719468


/-- Day number (days since 1970-01-01) of a date; this is the JS timestamp
(divided by 86 400 000) for a midnight date. -/
def dayNumber (dt : Date) : Int :=
  monthFirstDN dt.year dt.month + (dt.day - 1)


/-- The triple denotes an actual calendar date (month in range, day in range
for that month).  All dates handed to the engine are of this shape. -/
def ValidDate (dt : Date) : Prop :=
  0 ≤ dt.month ∧ dt.month ≤ 11 ∧ 1 ≤ dt.day ∧ dt.day ≤ daysInMonth dt.year dt.month


instance : DecidablePred ValidDate := fun dt => by unfold ValidDate; infer_instance


/-- Month index on an absolute scale: `12·year + month`. -/
def monthIndex (dt : Date) : Int := 12 * dt.year + dt.month


/-- Day number of the first day of the month with absolute index `μ`. -/
def mstart (μ : Int) : Int := monthFirstDN (μ / 12) (μ % 12)


/-- Year/month of the month preceding `(y, m)`. -/
def prevMY (y m : Int) : Int × Int := if m = 0 then (y - 1, 11) else (y, m - 1)


/-- Year/month of the month following `(y, m)`. -/
def nextMY (y m : Int) : Int × Int := if m = 11 then (y + 1, 0) else (y, m + 1)


/-- `new Date(y, m, x)`: JS normalizes an out-of-range day-of-month field into
the neighbouring months.  The engine only ever passes offsets that spill at
most one month in either direction (`x ≥ day − 6` and `x ≤ day + 7` on a valid
date), which this definition covers. -/
def mkDate (y m x : Int) : Date :=
  if x < 1 then
    ⟨(prevMY y m).1, (prevMY y m).2, daysInMonth (prevMY y m).1 (prevMY y m).2 + x⟩
  else if x ≤ daysInMonth y m then ⟨y, m, x⟩
  else ⟨(nextMY y m).1, (nextMY y m).2, x - daysInMonth y m⟩


/-- JS `getDay()`: 0 = Sunday … 6 = Saturday (1970-01-01 was a Thursday). -/
def getDay (dt : Date) : Int := (dayNumber dt + 4) % 7


/-- `AggregationPeriod = 'daily' | 'weekly' | 'monthly'`. -/
inductive AggregationPeriod where
  | daily
  | weekly
  | monthly
deriving DecidableEq, Repr


/-- `getPeriodStart` from `aggregator.ts`: the start of the bucket containing
`date` (daily: that day; weekly: its Monday; monthly: the first of its month). -/
def getPeriodStart (dt : Date) (p : AggregationPeriod) : Date :=
  match p with
  | .daily => mkDate dt.year dt.month dt.day
  | .weekly => mkDate dt.year dt.month (dt.day - getDay dt + (if getDay dt = 0 then -6 else 1))
  | .monthly => mkDate dt.year dt.month 1


/-- The loop step of `generatePeriods`/`generateFuturePeriods`:
`setDate(getDate()+1)`, `setDate(getDate()+7)`, or `setMonth(getMonth()+1)`.
`setMonth` keeps the day-of-month field; the loops only apply it to
first-of-month dates, where no JS renormalization occurs. -/
def stepPeriod (p : AggregationPeriod) (dt : Date) : Date :=
  match p with
  | .daily => mkDate dt.year dt.month (dt.day + 1)
  | .weekly => mkDate dt.year dt.month (dt.day + 7)
  | .monthly => ⟨(nextMY dt.year dt.month).1, (nextMY dt.year dt.month).2, dt.day⟩


/-- `s` is the start of its own bucket. -/
def IsStart (p : AggregationPeriod) (s : Date) : Prop := getPeriodStart s p = s


/-- The `while (current <= end)` loop of `generatePeriods`, with explicit
fuel.  `generatePeriods` invokes it with enough fuel for the whole range
(every step advances the day number by at least 1). -/
def genPeriodsGo (p : AggregationPeriod) (endD : Date) : Nat → Date → List Date
  | 0, _ => []
  | fuel + 1, cur =>
      if dayNumber cur ≤ dayNumber endD then
        cur :: genPeriodsGo p endD fuel (stepPeriod p cur)
      else []


/-- `generatePeriods` from `aggregator.ts`: every bucket start from the bucket
of `startDate` through the bucket of `endDate`, inclusive. -/
def generatePeriods (startDate endDate : Date) (p : AggregationPeriod) : List Date :=
  genPeriodsGo p (getPeriodStart endDate p)
    ((dayNumber (getPeriodStart endDate p) - dayNumber (getPeriodStart startDate p)).toNat + 1)
    (getPeriodStart startDate p)


/-!  ## Aggregator data model (`aggregator.ts` / `types/index.ts`)

`OrderRecord.unitPrice`/`supplier` are never read by the engine and are
omitted.  `AggregatedData.period` (the `toISOString()` bucket key) is carried
as the bucket start's `dayNumber` — the timestamp the ISO string encodes —
together with the bucket-start `Date` itself; `periodLabel` is display-only
and omitted.  JS `Map`s keyed by strings are embedded as association lists in
insertion order (`Map.set` on an existing key updates in place, otherwise
appends), and key lookups by `===` on ISO strings become lookups on the
underlying day numbers. -/

structure OrderRecord where
  date : Date
  productId : String
  productName : String
  quantity : ℚ
  category : Option String
deriving DecidableEq, Repr


structure AggregatedData where
  period : Int
  periodStart : Date
  productId : String
  productName : String
  totalQuantity : ℚ
  orderCount : Nat
  avgQuantityPerOrder : ℚ
deriving DecidableEq, Repr, Inhabited


structure ProductAggregation where
  productId : String
  productName : String
  category : Option String
  data : List AggregatedData
  totalOrders : Nat
  totalQuantity : ℚ
  firstOrderDate : Date
  lastOrderDate : Date
deriving DecidableEq, Repr, Inhabited


/-- `Map.get`: first entry with the key. -/
def alGet {α : Type} (m : List (String × α)) (k : String) : Option α :=
  (m.find? (fun e => e.1 == k)).map (fun e => e.2)


/-- `Map.set`: update in place if the key exists, else append. -/
def alSet {α : Type} (m : List (String × α)) (k : String) (v : α) : List (String × α) :=
  if m.any (fun e => e.1 == k) then m.map (fun e => if e.1 == k then (k, v) else e)
  else m ++ [(k, v)]


/-- A fresh `ProductAggregation` as created for the first order of a product. -/
def initPA (o : OrderRecord) : ProductAggregation :=
  { productId := o.productId, productName := o.productName, category := o.category,
    data := [], totalOrders := 0, totalQuantity := 0,
    firstOrderDate := o.date, lastOrderDate := o.date }


/-- The per-order mutations of the grouping pass: bump counters, extend the
date range. -/
def bumpPA (pa : ProductAggregation) (o : OrderRecord) : ProductAggregation :=
  { pa with
    totalOrders := pa.totalOrders + 1,
    totalQuantity := pa.totalQuantity + o.quantity,
    firstOrderDate :=
      if dayNumber o.date < dayNumber pa.firstOrderDate then o.date else pa.firstOrderDate,
    lastOrderDate :=
      if dayNumber pa.lastOrderDate < dayNumber o.date then o.date else pa.lastOrderDate }


def groupStep (m : List (String × ProductAggregation)) (o : OrderRecord) :
    List (String × ProductAggregation) :=
  alSet m o.productId (bumpPA ((alGet m o.productId).getD (initPA o)) o)


/-- The first pass of `aggregateOrderData`: group orders by product. -/
def groupOrders (orders : List OrderRecord) : List (String × ProductAggregation) :=
  orders.foldl groupStep []


/-- All periods of the range initialized with zero, keyed by bucket start. -/
def initPeriodData (allPeriods : List Date) (pid pname : String) :
    List (Int × AggregatedData) :=
  allPeriods.map (fun pd =>
    (dayNumber pd,
      { period := dayNumber pd, periodStart := pd, productId := pid, productName := pname,
        totalQuantity := 0, orderCount := 0, avgQuantityPerOrder := 0 }))


/-- Folding one order into its bucket: accumulate if the key is present,
silently skip otherwise (`if (data) { … }`). -/
def addOrderToPeriods (m : List (Int × AggregatedData)) (p : AggregationPeriod)
    (o : OrderRecord) : List (Int × AggregatedData) :=
  m.map (fun e =>
    if e.1 == dayNumber (getPeriodStart o.date p) then
      (e.1, { e.2 with totalQuantity := e.2.totalQuantity + o.quantity,
                       orderCount := e.2.orderCount + 1 })
    else e)


/-- `Array.prototype.sort` with comparator
`(a, b) => new Date(a.period) − new Date(b.period)`: a stable comparison sort
on the period key, modelled as stable insertion sort (the keys are distinct,
so any correct comparison sort produces the same list). -/
def insertByPeriod (a : AggregatedData) : List AggregatedData → List AggregatedData
  | [] => [a]
  | b :: l => if a.period ≤ b.period then a :: b :: l else b :: insertByPeriod a l


def sortByPeriod : List AggregatedData → List AggregatedData
  | [] => []
  | a :: l => insertByPeriod a (sortByPeriod l)


/-- The per-product second pass: generate all periods, fold the product's
orders in, compute `avgQuantityPerOrder`, and sort by period. -/
def computeProductData (orders : List OrderRecord) (p : AggregationPeriod)
    (pid : String) (pa : ProductAggregation) : List AggregatedData :=
  let productOrders := orders.filter (fun o => o.productId == pid)
  let allPeriods := generatePeriods pa.firstOrderDate pa.lastOrderDate p
  let periodData := productOrders.foldl (fun m o => addOrderToPeriods m p o)
    (initPeriodData allPeriods pa.productId pa.productName)
  sortByPeriod (periodData.map (fun e =>
    { e.2 with avgQuantityPerOrder :=
        if e.2.orderCount > 0 then e.2.totalQuantity / (e.2.orderCount : ℚ) else 0 }))


/-- `aggregateOrderData` from `aggregator.ts`. -/
def aggregateOrderData (orders : List OrderRecord) (p : AggregationPeriod) :
    List (String × ProductAggregation) :=
  (groupOrders orders).map (fun e =>
    (e.1, { e.2 with data := computeProductData orders p e.1 e.2 }))


/-- "Differ by exactly one bucket width": one day, seven days, or one
calendar month. -/
def widthRel (p : AggregationPeriod) (a b : Date) : Prop :=
  match p with
  | .daily => dayNumber b = dayNumber a + 1
  | .weekly => dayNumber b = dayNumber a + 7
  | .monthly => monthIndex b = monthIndex a + 1 ∧ b.day = 1 ∧ a.day = 1


/-- The spec's reading of the `category` field: the category of the first
order of the product that has one. -/
def firstNonNullCategory (orders : List OrderRecord) (pid : String) : Option String :=
  (orders.filter (fun o => o.productId == pid)).findSome? (fun o => o.category)


/-!  ## Metrics and forecasting (`metrics.ts` / `forecasting.ts`)

All arithmetic is over `ℚ`.  `fdivQ` is checked division: `none` models the
non-finite (`Infinity`/`NaN`) JS number that division by zero produces.
Standard errors are `√x` for a rational `x ≥ 0` and are carried as their
radicand (`standardErrorSq`, with `standardError = √standardErrorSq`);
z-scores likewise.  Display-only fields (`periodLabel`) are omitted, and the
per-point `confidenceLow`/`confidenceHigh` (irrational via the standard
error) are specified through `calculateConfidenceInterval`, which is
rational-in/rational-out. -/

def fdivQ (a b : ℚ) : Option ℚ := if b = 0 then none else some (a / b)


def mean (values : List ℚ) : ℚ :=
  if values.length = 0 then 0 else values.sum / values.length


def variance (values : List ℚ) : ℚ :=
  if values.length < 2 then 0
  else ((values.map (fun v => (v - mean values) ^ 2)).sum) / ((values.length : ℚ) - 1)


inductive TrendDirection where
  | increasing
  | decreasing
  | stable
deriving DecidableEq, Repr


/-- `determineTrend` from `metrics.ts`. -/
def determineTrend (slope rSquared avgValue : ℚ) : TrendDirection :=
  let normalizedSlope := if avgValue ≠ 0 then slope / avgValue else 0
  let significantRSquared := rSquared > 0.1
  let significantSlope := |normalizedSlope| > 0.02
  if ¬ significantRSquared ∨ ¬ significantSlope then .stable
  else if slope > 0 then .increasing else .decreasing


inductive OutlierType where
  | spike
  | drop
deriving DecidableEq, Repr


structure OutlierData where
  period : Date
  quantity : ℚ
  zScoreSq : ℚ
  type : OutlierType
deriving DecidableEq, Repr


/-- `detectOutliers` from `metrics.ts`.  `std = √(variance quantities)`, so
the guard `std === 0` is `variance = 0`, and the flag `|z| > threshold` with
`z = (q − avg)/std` is the comparison of squares
`(q − avg)² > threshold² · variance` (both sides are squares of reals, so
this is exact).  `zScore` is carried as its square. -/
def detectOutliers (data : List (Date × ℚ)) (zScoreThreshold : ℚ) : List OutlierData :=
  let quantities := data.map (fun d => d.2)
  let avg := mean quantities
  let v := variance quantities
  if v = 0 then []
  else
    (data.filter (fun item => (item.2 - avg) ^ 2 > zScoreThreshold ^ 2 * v)).map
      (fun item =>
        ⟨item.1, item.2, (item.2 - avg) ^ 2 / v,
          if item.2 - avg > 0 then .spike else .drop⟩)


structure RegressionResult where
  slope : ℚ
  intercept : ℚ
  rSquared : ℚ
deriving DecidableEq, Repr


/-- The `predict` closure of a `RegressionResult`: `x ↦ slope·x + intercept`
(in the degenerate `n < 2` branch the source returns the constant
`values[0] || 0`, which coincides with `slope·x + intercept` for
`slope = 0`, `intercept = values[0] || 0`). -/
def predict (r : RegressionResult) (x : ℚ) : ℚ := r.slope * x + r.intercept


/-- `linearRegression` from `metrics.ts`: ordinary least squares of the
values against their indices `0, 1, 2, …`. -/
def linearRegression (values : List ℚ) : RegressionResult :=
  let n := values.length
  if n < 2 then ⟨0, values.headD 0, 0⟩
  else
    let xMean := mean ((List.range n).map (fun i : Nat => (i : ℚ)))
    let yMean := mean values
    let numerator := ((values.enum).map (fun q => ((q.1 : ℚ) - xMean) * (q.2 - yMean))).sum
    let denominator := ((List.range n).map (fun i : Nat => ((i : ℚ) - xMean) ^ 2)).sum
    let slope := if denominator ≠ 0 then numerator / denominator else 0
    let intercept := yMean - slope * xMean
    let ssRes := ((values.enum).map (fun q => (q.2 - (slope * (q.1 : ℚ) + intercept)) ^ 2)).sum
    let ssTot := (values.map (fun y => (y - yMean) ^ 2)).sum
    let rSquared := if ssTot ≠ 0 then 1 - ssRes / ssTot else 0
    ⟨slope, intercept, max 0 rSquared⟩


structure MovingAverageResult where
  forecast : ℚ
  standardErrorSq : Option ℚ
deriving DecidableEq, Repr


/-- `values.slice(-n)`: the last `n` values; JS `slice(-0)` is `slice(0)`,
the whole array. -/
def sliceLast (values : List ℚ) (n : Nat) : List ℚ :=
  if n = 0 then values else values.drop (values.length - n)


/-- `simpleMovingAverage` from `forecasting.ts`;
`standardError = stdDeviation(recentValues)/√n`, carried as its square
`variance(recentValues)/n`. -/
def simpleMovingAverage (values : List ℚ) (periods : Nat) : MovingAverageResult :=
  if values.length = 0 then ⟨0, some 0⟩
  else
    let n := min periods values.length
    let recentValues := sliceLast values n
    ⟨mean recentValues, fdivQ (variance recentValues) n⟩


/-- `weightedMovingAverage` from `forecasting.ts`: linear weights `1…n`;
`standardError = √(weightedVariance)/√n`, carried as its square
`weightedVariance/n`. -/
def weightedMovingAverage (values : List ℚ) (periods : Nat) : MovingAverageResult :=
  if values.length = 0 then ⟨0, some 0⟩
  else
    let n := min periods values.length
    let recentValues := sliceLast values n
    let weights := (List.range recentValues.length).map (fun i : Nat => ((i : ℚ) + 1))
    let totalWeight := weights.sum
    let weightedSum := ((recentValues.zip weights).map (fun q => q.1 * q.2)).sum
    let forecast := weightedSum / totalWeight
    let weightedVariance :=
      (((recentValues.zip weights).map (fun q => q.2 * (q.1 - forecast) ^ 2)).sum) / totalWeight
    ⟨forecast, fdivQ weightedVariance n⟩


structure LRForecastResult where
  forecasts : List ℚ
  standardErrorsSq : List (Option ℚ)
  rSquared : ℚ
deriving DecidableEq, Repr


/-- `linearRegressionForecast` from `forecasting.ts`: forecasts at indices
`n, n+1, …`, each floored at 0; per-point
`standardError = standardErrorEstimate · √(1 + 1/n + (x − x̄)²/Σ(xᵢ − x̄)²)`
with `standardErrorEstimate = √(residualSS/(n − 2))`, carried as its square.
At `n = 2` the source divides `residualSS` by `n − 2 = 0`, producing a
non-finite JS number — modelled by `fdivQ` returning `none`. -/
def linearRegressionForecast (values : List ℚ) (periodsAhead : Nat) : LRForecastResult :=
  if values.length < 2 then
    ⟨List.replicate periodsAhead (values.headD 0), List.replicate periodsAhead (some 0), 0⟩
  else
    let regression := linearRegression values
    let n := values.length
    let residualSS := ((values.enum).map (fun q => (q.2 - predict regression (q.1 : ℚ)) ^ 2)).sum
    let standardErrorEstimateSq := fdivQ residualSS ((n : ℚ) - 2)
    let xMean := ((n : ℚ) - 1) / 2
    let xVariance := ((List.range n).map (fun i : Nat => ((i : ℚ) - xMean) ^ 2)).sum
    ⟨(List.range periodsAhead).map (fun i => max 0 (predict regression ((n + i : Nat) : ℚ))),
      (List.range periodsAhead).map (fun i =>
        standardErrorEstimateSq.bind (fun a =>
          (fdivQ ((((n + i : Nat) : ℚ) - xMean) ^ 2) xVariance).map
            (fun b => a * (1 + 1 / (n : ℚ) + b)))),
      regression.rSquared⟩


/-- The `T_CRITICAL` table rows of `forecasting.ts`, with their
degrees-of-freedom breakpoints in the order JS `Object.keys` enumerates them
(integer-like keys ascending, then `"Infinity"`). -/
def T_ROW_90 : List (Int × ℚ) :=
  [(5, 2.015), (10, 1.812), (20, 1.725), (30, 1.697), (50, 1.676), (100, 1.660)]


def T_INF_90 : ℚ := 1.645


def T_ROW_95 : List (Int × ℚ) :=
  [(5, 2.571), (10, 2.228), (20, 2.086), (30, 2.042), (50, 2.009), (100, 1.984)]


def T_INF_95 : ℚ := 1.960


def T_ROW_99 : List (Int × ℚ) :=
  [(5, 4.032), (10, 3.169), (20, 2.845), (30, 2.750), (50, 2.678), (100, 2.626)]


def T_INF_99 : ℚ := 2.576


/-- `getTCritical` from `forecasting.ts`: select the confidence row
(`T_CRITICAL[confidence] || T_CRITICAL[0.95]` — any level other than
0.90/0.95/0.99 silently falls back to the 95% row), then return the entry at
the first breakpoint `≥ df`, else the `Infinity` entry. -/
def getTCritical (confidence : ℚ) (df : Int) : ℚ :=
  let confidenceTable :=
    if confidence = 0.9 then (T_ROW_90, T_INF_90)
    else if confidence = 0.95 then (T_ROW_95, T_INF_95)
    else if confidence = 0.99 then (T_ROW_99, T_INF_99)
    else (T_ROW_95, T_INF_95)
  match confidenceTable.1.find? (fun e => decide (df ≤ e.1)) with
  | some e => e.2
  | none => confidenceTable.2


/-- `calculateConfidenceInterval` from `forecasting.ts`. -/
def calculateConfidenceInterval (forecast standardError : ℚ) (sampleSize : Int)
    (confidenceLevel : ℚ) : ℚ × ℚ :=
  let df := max 1 (sampleSize - 1)
  let tCritical := getTCritical confidenceLevel df
  let margin := tCritical * standardError
  (max 0 (forecast - margin), forecast + margin)


def getPeriodsPerWeek (p : AggregationPeriod) : ℚ :=
  match p with
  | .daily => 7
  | .weekly => 1
  | .monthly => 0.25


def getPeriodsPerMonth (p : AggregationPeriod) : ℚ :=
  match p with
  | .daily => 30
  | .weekly => 4.33
  | .monthly => 1


/-- `ProjectionTimeframe`: the source's timeframe strings `"N_week(s)"` /
`"N_month(s)"`, with the count the regex extracts; `unknown` covers any
other string. -/
inductive ProjectionTimeframe where
  | weeks (n : Nat)
  | months (n : Nat)
  | unknown
deriving DecidableEq, Repr


/-- `timeframeToPeriods` from `aggregator.ts` (`Math.ceil`; unmatched
timeframes default to 4 periods). -/
def timeframeToPeriods (tf : ProjectionTimeframe) (p : AggregationPeriod) : Nat :=
  match tf with
  | .weeks n => (⌈(n : ℚ) * getPeriodsPerWeek p⌉).toNat
  | .months n => (⌈(n : ℚ) * getPeriodsPerMonth p⌉).toNat
  | .unknown => 4


def stepPeriodIter (p : AggregationPeriod) (s : Date) : Nat → Date
  | 0 => s
  | k + 1 => stepPeriod p (stepPeriodIter p s k)


/-- `generateFuturePeriods` from `aggregator.ts`: starting from the bucket
start of `lastDate`, step once before each emitted period. -/
def generateFuturePeriods (lastDate : Date) (numPeriods : Nat)
    (p : AggregationPeriod) : List Date :=
  (List.range numPeriods).map (fun i => stepPeriodIter p (getPeriodStart lastDate p) (i + 1))


inductive ForecastMethod where
  | sma
  | wma
  | linear_regression
deriving DecidableEq, Repr


structure ForecastSettings where
  method : ForecastMethod
  timeframe : ProjectionTimeframe
  periods : Nat
  safetyStockPercent : ℚ
  leadTimeDays : ℚ
  confidenceLevel : ℚ
deriving DecidableEq, Repr


/-- One output point; `periodLabel` is display-only and omitted, and the
irrational `confidenceLow`/`confidenceHigh` are specified separately through
`calculateConfidenceInterval` (they are never read back by the engine). -/
structure ProjectionPoint where
  period : Date
  projectedDemand : ℚ
  isForecast : Bool
deriving DecidableEq, Repr


/-- The one `ProductMetrics` field `generateProductProjection` reads. -/
structure ProductMetricsQ where
  avgDailyDemand : ℚ
deriving DecidableEq, Repr


structure ProductProjection where
  productId : String
  productName : String
  category : Option String
  historicalData : List ProjectionPoint
  projectedData : List ProjectionPoint
  totalProjectedDemand : ℚ
  avgProjectedDemand : ℚ
  suggestedReorderQty : Int
  reorderPoint : Int
  safetyStock : Int
  confidenceLevel : ℚ
  method : ForecastMethod
  metrics : ProductMetricsQ
deriving DecidableEq, Repr


/-- `Math.round(q * 100) / 100` (JS rounds half toward +∞). -/
def round2 (q : ℚ) : ℚ := ((⌊100 * q + 1 / 2⌋ : Int) : ℚ) / 100


/-- `generateProductProjection` from `forecasting.ts`. -/
def generateProductProjection (aggregation : ProductAggregation)
    (metrics : ProductMetricsQ) (settings : ForecastSettings)
    (p : AggregationPeriod) : ProductProjection :=
  let historicalQuantities := aggregation.data.map (fun d => d.totalQuantity)
  let numFuturePeriods := timeframeToPeriods settings.timeframe p
  let historicalData : List ProjectionPoint :=
    aggregation.data.map (fun d => ⟨d.periodStart, d.totalQuantity, false⟩)
  let futurePeriods := generateFuturePeriods aggregation.lastOrderDate numFuturePeriods p
  let projectedData : List ProjectionPoint :=
    match settings.method with
    | .sma =>
        let r := simpleMovingAverage historicalQuantities settings.periods
        futurePeriods.map (fun fp => ⟨fp, round2 r.forecast, true⟩)
    | .wma =>
        let r := weightedMovingAverage historicalQuantities settings.periods
        futurePeriods.map (fun fp => ⟨fp, round2 r.forecast, true⟩)
    | .linear_regression =>
        let r := linearRegressionForecast historicalQuantities numFuturePeriods
        (futurePeriods.zip r.forecasts).map (fun q => ⟨q.1, round2 q.2, true⟩)
  let totalProjectedDemand := (projectedData.map (fun pt => pt.projectedDemand)).sum
  let avgProjectedDemand :=
    if projectedData.length > 0 then totalProjectedDemand / (projectedData.length : ℚ) else 0
  let safetyStock : Int := ⌈avgProjectedDemand * (settings.safetyStockPercent / 100)⌉
  let leadTimeDemand := metrics.avgDailyDemand * settings.leadTimeDays
  let reorderPoint : Int := ⌈leadTimeDemand + (safetyStock : ℚ)⌉
  let suggestedReorderQty : Int := ⌈totalProjectedDemand + (safetyStock : ℚ)⌉
  { productId := aggregation.productId
    productName := aggregation.productName
    category := aggregation.category
    historicalData := historicalData
    projectedData := projectedData
    totalProjectedDemand := round2 totalProjectedDemand
    avgProjectedDemand := round2 avgProjectedDemand
    suggestedReorderQty := suggestedReorderQty
    reorderPoint := reorderPoint
    safetyStock := safetyStock
    confidenceLevel := settings.confidenceLevel * 100
    method := settings.method
    metrics := metrics }


/-- The spec's t-table: degrees-of-freedom breakpoints
`{5, 10, 20, 30, 50, 100, ∞}` for levels `{0.90, 0.95, 0.99}`, choosing the
first breakpoint `≥ df`, else the `∞` entry (levels other than the three
listed take the 0.95 row, mirroring the source's fallback). -/
def tLookupSpec (confidence : ℚ) (df : Int) : ℚ :=
  if confidence = 0.9 then
    (if df ≤ 5 then 2.015 else if df ≤ 10 then 1.812 else if df ≤ 20 then 1.725
     else if df ≤ 30 then 1.697 else if df ≤ 50 then 1.676 else if df ≤ 100 then 1.660
     else 1.645)
  else if confidence = 0.99 then
    (if df ≤ 5 then 4.032 else if df ≤ 10 then 3.169 else if df ≤ 20 then 2.845
     else if df ≤ 30 then 2.750 else if df ≤ 50 then 2.678 else if df ≤ 100 then 2.626
     else 2.576)
  else
    (if df ≤ 5 then 2.571 else if df ≤ 10 then 2.228 else if df ≤ 20 then 2.086
     else if df ≤ 30 then 2.042 else if df ≤ 50 then 2.009 else if df ≤ 100 then 1.984
     else 1.960)



/-- The per-point squared standard error that the spec's formula
`se = √(residualSS/(n−2)) · √(1 + 1/n + (x − x̄)²/Σ(xᵢ − x̄)²)` prescribes for
the forecast at index `x = n + i`, written with total `ℚ` division. -/
def lrStdErrSqSpec (values : List ℚ) (i : Nat) : ℚ :=
  let n := values.length
  let regression := linearRegression values
  let residualSS := ((values.enum).map (fun q => (q.2 - predict regression (q.1 : ℚ)) ^ 2)).sum
  let xMean := ((n : ℚ) - 1) / 2
  let xVariance := ((List.range n).map (fun j : Nat => ((j : ℚ) - xMean) ^ 2)).sum
  residualSS / ((n : ℚ) - 2) * (1 + 1 / (n : ℚ) + (((n + i : Nat) : ℚ) - xMean) ^ 2 / xVariance)




/-- The spec's per-point forecasts *before* any rounding: the raw method
output that `generateProductProjection` rounds point by point. -/
def unroundedForecasts (aggregation : ProductAggregation) (settings : ForecastSettings)
    (p : AggregationPeriod) : List ℚ :=
  let historicalQuantities := aggregation.data.map (fun d => d.totalQuantity)
  let numFuturePeriods := timeframeToPeriods settings.timeframe p
  match settings.method with
  | .sma => List.replicate numFuturePeriods
      (simpleMovingAverage historicalQuantities settings.periods).forecast
  | .wma => List.replicate numFuturePeriods
      (weightedMovingAverage historicalQuantities settings.periods).forecast
  | .linear_regression =>
      (linearRegressionForecast historicalQuantities numFuturePeriods).forecasts


theorem monthFirstDN_succ (y m : Int) (h0 : 0 ≤ m) (h1 : m ≤ 11) :
    monthFirstDN (if m = 11 then y + 1 else y) (if m = 11 then 0 else m + 1) =
      monthFirstDN y m + daysInMonth y m := by
  interval_cases m <;>
    simp only [monthFirstDN, daysInMonth, leapDay, yShift] <;>
    first
      | omega
      | (split_ifs <;> first | omega | simp_all)


theorem mstart_succ (μ : Int) :
    mstart (μ + 1) = mstart μ + daysInMonth (μ / 12) (μ % 12) := by
  have key := monthFirstDN_succ (μ / 12) (μ % 12) (by omega) (by omega)
  unfold mstart
  rcases eq_or_ne (μ % 12) 11 with h | h
  · have ha : (μ + 1) / 12 = μ / 12 + 1 := by omega
    have hb : (μ + 1) % 12 = 0 := by omega
    rw [ha, hb]
    simpa [h] using key
  · have ha : (μ + 1) / 12 = μ / 12 := by omega
    have hb : (μ + 1) % 12 = μ % 12 + 1 := by omega
    rw [ha, hb]
    simpa [h] using key


theorem daysInMonth_bounds (y m : Int) : 28 ≤ daysInMonth y m ∧ daysInMonth y m ≤ 31 := by
  unfold daysInMonth leapDay
  split_ifs <;> omega


theorem mstart_lt_succ (μ : Int) : mstart μ < mstart (μ + 1) := by
  have := mstart_succ μ
  have := daysInMonth_bounds (μ / 12) (μ % 12)
  omega


theorem mstart_strictMono : StrictMono mstart :=
  strictMono_int_of_lt_succ mstart_lt_succ


theorem mstart_monthIndex (dt : Date) (h : ValidDate dt) :
    mstart (monthIndex dt) = monthFirstDN dt.year dt.month := by
  obtain ⟨h0, h1, _, _⟩ := h
  unfold mstart monthIndex
  have he : (12 * dt.year + dt.month) / 12 = dt.year ∧
      (12 * dt.year + dt.month) % 12 = dt.month := by omega
  rw [he.1, he.2]


/-- A valid date's day number lies in its month's day-number interval. -/
theorem dayNumber_mem_month (dt : Date) (h : ValidDate dt) :
    mstart (monthIndex dt) ≤ dayNumber dt ∧ dayNumber dt < mstart (monthIndex dt + 1) := by
  obtain ⟨h0, h1, h2, h3⟩ := h
  have hm := mstart_monthIndex dt ⟨h0, h1, h2, h3⟩
  have hs := mstart_succ (monthIndex dt)
  have he : (monthIndex dt) / 12 = dt.year ∧ (monthIndex dt) % 12 = dt.month := by
    unfold monthIndex; omega
  unfold dayNumber
  rw [hm] at *
  rw [hs, he.1, he.2]
  omega


/-- Months partition the day-number line: the month interval containing a day
number is unique. -/
theorem mstart_interval_unique {μ μ' n : Int}
    (h : mstart μ ≤ n ∧ n < mstart (μ + 1)) (h' : mstart μ' ≤ n ∧ n < mstart (μ' + 1)) :
    μ = μ' := by
  by_contra hne
  rcases lt_or_gt_of_ne hne with hlt | hlt
  · have : mstart (μ + 1) ≤ mstart μ' := mstart_strictMono.le_iff_le.mpr (by omega)
    omega
  · have : mstart (μ' + 1) ≤ mstart μ := mstart_strictMono.le_iff_le.mpr (by omega)
    omega


/-- `dayNumber` is injective on valid dates. -/
theorem dayNumber_injOn {a b : Date} (ha : ValidDate a) (hb : ValidDate b)
    (h : dayNumber a = dayNumber b) : a = b := by
  have hma := dayNumber_mem_month a ha
  have hmb := dayNumber_mem_month b hb
  have hμ : monthIndex a = monthIndex b := by
    exact mstart_interval_unique hma (h ▸ hmb)
  obtain ⟨ha0, ha1, _, _⟩ := ha
  obtain ⟨hb0, hb1, _, _⟩ := hb
  have hy : a.year = b.year ∧ a.month = b.month := by
    unfold monthIndex at hμ; omega
  have hd : a.day = b.day := by
    have := mstart_monthIndex a ⟨ha0, ha1, by omega, by omega⟩
    unfold dayNumber at h
    rw [hy.1, hy.2] at h
    omega
  cases a; cases b
  simp_all


theorem monthFirstDN_next (y m : Int) (h0 : 0 ≤ m) (h1 : m ≤ 11) :
    monthFirstDN (nextMY y m).1 (nextMY y m).2 = monthFirstDN y m + daysInMonth y m := by
  have h := monthFirstDN_succ y m h0 h1
  rcases eq_or_ne m 11 with hm | hm
  · subst hm
    simpa [nextMY] using h
  · simp only [nextMY, if_neg hm]
    simpa [hm] using h


theorem monthFirstDN_prev (y m : Int) (h0 : 0 ≤ m) (h1 : m ≤ 11) :
    monthFirstDN y m =
      monthFirstDN (prevMY y m).1 (prevMY y m).2 +
        daysInMonth (prevMY y m).1 (prevMY y m).2 := by
  rcases eq_or_ne m 0 with h | h
  · subst h
    have hn := monthFirstDN_next (y - 1) 11 (by omega) (by omega)
    simp only [nextMY, if_pos rfl] at hn
    simp only [prevMY, if_pos rfl]
    simpa using hn
  · have hn := monthFirstDN_next y (m - 1) (by omega) (by omega)
    have hne : ¬ (m - 1 = 11) := by omega
    simp only [nextMY, if_neg hne] at hn
    simp only [prevMY, if_neg h]
    simpa using hn


theorem prevMY_month_range (y m : Int) (h0 : 0 ≤ m) (h1 : m ≤ 11) :
    0 ≤ (prevMY y m).2 ∧ (prevMY y m).2 ≤ 11 := by
  unfold prevMY
  split_ifs <;> constructor <;> simp <;> omega


theorem nextMY_month_range (y m : Int) (h0 : 0 ≤ m) (h1 : m ≤ 11) :
    0 ≤ (nextMY y m).2 ∧ (nextMY y m).2 ≤ 11 := by
  unfold nextMY
  split_ifs <;> constructor <;> simp <;> omega


/-- Correctness of JS day-of-month normalization on the one-month spillover
range: the result is a valid date whose day number continues the linear count
`monthFirstDN y m + (x − 1)`. -/
theorem mkDate_spec (y m x : Int) (h0 : 0 ≤ m) (h1 : m ≤ 11)
    (hlo : 1 - daysInMonth (prevMY y m).1 (prevMY y m).2 ≤ x)
    (hhi : x ≤ daysInMonth y m + daysInMonth (nextMY y m).1 (nextMY y m).2) :
    ValidDate (mkDate y m x) ∧ dayNumber (mkDate y m x) = monthFirstDN y m + (x - 1) := by
  have hprevM := prevMY_month_range y m h0 h1
  have hnextM := nextMY_month_range y m h0 h1
  have hprevD := monthFirstDN_prev y m h0 h1
  have hnextD := monthFirstDN_next y m h0 h1
  have hb := daysInMonth_bounds y m
  have hbp := daysInMonth_bounds (prevMY y m).1 (prevMY y m).2
  have hbn := daysInMonth_bounds (nextMY y m).1 (nextMY y m).2
  unfold mkDate
  split_ifs with hc1 hc2 <;>
    refine ⟨?_, ?_⟩ <;> simp only [ValidDate, dayNumber] <;> omega


theorem getPeriodStart_daily (dt : Date) (h : ValidDate dt) :
    getPeriodStart dt .daily = dt := by
  obtain ⟨h0, h1, h2, h3⟩ := h
  simp only [getPeriodStart, mkDate]
  rw [if_neg (by omega), if_pos h3]


theorem weekly_start_spec (dt : Date) (h : ValidDate dt) :
    ValidDate (getPeriodStart dt .weekly) ∧
      dayNumber (getPeriodStart dt .weekly) = dayNumber dt - (dayNumber dt + 3) % 7 := by
  obtain ⟨h0, h1, h2, h3⟩ := h
  have hbp := daysInMonth_bounds (prevMY dt.year dt.month).1 (prevMY dt.year dt.month).2
  have hbn := daysInMonth_bounds (nextMY dt.year dt.month).1 (nextMY dt.year dt.month).2
  have hgd : getDay dt = (dayNumber dt + 4) % 7 := rfl
  have hdn : dayNumber dt = monthFirstDN dt.year dt.month + (dt.day - 1) := rfl
  have hwd : 0 ≤ getDay dt ∧ getDay dt < 7 := by rw [hgd]; omega
  have key := mkDate_spec dt.year dt.month
      (dt.day - getDay dt + (if getDay dt = 0 then -6 else 1)) h0 h1
      (by rcases eq_or_ne (getDay dt) 0 with hd | hd <;> simp [hd] <;> omega)
      (by rcases eq_or_ne (getDay dt) 0 with hd | hd <;> simp [hd] <;> omega)
  constructor
  · simpa [getPeriodStart] using key.1
  · have h2' := key.2
    simp only [getPeriodStart]
    rcases eq_or_ne (getDay dt) 0 with hd | hd <;>
      · simp only [hd, if_pos, if_neg, reduceIte] at h2' ⊢
        omega


theorem monthly_start_spec (dt : Date) (h : ValidDate dt) :
    getPeriodStart dt .monthly = ⟨dt.year, dt.month, 1⟩ := by
  obtain ⟨h0, h1, h2, h3⟩ := h
  have hb := daysInMonth_bounds dt.year dt.month
  simp only [getPeriodStart, mkDate]
  rw [if_neg (by omega), if_pos (by omega)]


theorem monthly_start_valid (dt : Date) (h : ValidDate dt) :
    ValidDate (⟨dt.year, dt.month, 1⟩ : Date) := by
  obtain ⟨h0, h1, h2, h3⟩ := h
  have hb := daysInMonth_bounds dt.year dt.month
  simp only [ValidDate]
  omega


/-- Bucket starts are valid dates and never after the date they bucket. -/
theorem getPeriodStart_valid_le (dt : Date) (p : AggregationPeriod) (h : ValidDate dt) :
    ValidDate (getPeriodStart dt p) ∧ dayNumber (getPeriodStart dt p) ≤ dayNumber dt := by
  cases p with
  | daily => rw [getPeriodStart_daily dt h]; exact ⟨h, le_refl _⟩
  | weekly =>
      have := weekly_start_spec dt h
      exact ⟨this.1, by omega⟩
  | monthly =>
      rw [monthly_start_spec dt h]
      refine ⟨monthly_start_valid dt h, ?_⟩
      obtain ⟨h0, h1, h2, h3⟩ := h
      simp only [dayNumber]
      omega


/-- Bucketing is monotone in the date. -/
theorem getPeriodStart_mono {a b : Date} (p : AggregationPeriod)
    (ha : ValidDate a) (hb : ValidDate b) (hab : dayNumber a ≤ dayNumber b) :
    dayNumber (getPeriodStart a p) ≤ dayNumber (getPeriodStart b p) := by
  cases p with
  | daily => rw [getPeriodStart_daily a ha, getPeriodStart_daily b hb]; exact hab
  | weekly =>
      have h1 := weekly_start_spec a ha
      have h2 := weekly_start_spec b hb
      omega
  | monthly =>
      rw [monthly_start_spec a ha, monthly_start_spec b hb]
      have h1 := dayNumber_mem_month a ha
      have h2 := dayNumber_mem_month b hb
      have hμ : monthIndex a ≤ monthIndex b := by
        by_contra hc
        have : mstart (monthIndex b + 1) ≤ mstart (monthIndex a) :=
          mstart_strictMono.le_iff_le.mpr (by omega)
        omega
      have := mstart_strictMono.le_iff_le.mpr hμ
      have hma := mstart_monthIndex a ha
      have hmb := mstart_monthIndex b hb
      simp only [dayNumber]
      omega


theorem isStart_getPeriodStart (dt : Date) (p : AggregationPeriod) (h : ValidDate dt) :
    IsStart p (getPeriodStart dt p) := by
  cases p with
  | daily =>
      unfold IsStart
      rw [getPeriodStart_daily dt h, getPeriodStart_daily dt h]
  | weekly =>
      have hs := weekly_start_spec dt h
      have hs2 := weekly_start_spec _ hs.1
      unfold IsStart
      refine dayNumber_injOn hs2.1 hs.1 ?_
      omega
  | monthly =>
      unfold IsStart
      rw [monthly_start_spec dt h, monthly_start_spec _ (monthly_start_valid dt h)]


/-- Characterization of weekly starts: day number ≡ 4 mod 7 (Mondays). -/
theorem isStart_weekly_iff (s : Date) (h : ValidDate s) :
    IsStart .weekly s ↔ (dayNumber s + 3) % 7 = 0 := by
  have hs := weekly_start_spec s h
  constructor
  · intro hi
    unfold IsStart at hi
    rw [hi] at hs
    omega
  · intro hm
    refine dayNumber_injOn hs.1 h ?_
    omega


/-- Characterization of monthly starts: the first of a month. -/
theorem isStart_monthly_iff (s : Date) (h : ValidDate s) :
    IsStart .monthly s ↔ s.day = 1 := by
  constructor
  · intro hi
    unfold IsStart at hi
    rw [monthly_start_spec s h] at hi
    have := congrArg Date.day hi
    simpa using this.symm
  · intro hd
    unfold IsStart
    rw [monthly_start_spec s h]
    cases s
    simp_all


/-- Stepping a bucket start yields the next bucket start: still a valid start,
strictly later, and advancing by exactly one bucket width. -/
theorem stepPeriod_spec (p : AggregationPeriod) (s : Date)
    (hv : ValidDate s) (hs : IsStart p s) :
    ValidDate (stepPeriod p s) ∧ IsStart p (stepPeriod p s) ∧
      dayNumber s < dayNumber (stepPeriod p s) := by
  obtain ⟨h0, h1, h2, h3⟩ := hv
  cases p with
  | daily =>
      have key := mkDate_spec s.year s.month (s.day + 1) h0 h1
        (by have := daysInMonth_bounds (prevMY s.year s.month).1 (prevMY s.year s.month).2; omega)
        (by have := daysInMonth_bounds (nextMY s.year s.month).1 (nextMY s.year s.month).2; omega)
      have hdn : dayNumber s = monthFirstDN s.year s.month + (s.day - 1) := rfl
      refine ⟨key.1, ?_, by simp only [stepPeriod]; omega⟩
      exact getPeriodStart_daily _ key.1
  | weekly =>
      have key := mkDate_spec s.year s.month (s.day + 7) h0 h1
        (by have := daysInMonth_bounds (prevMY s.year s.month).1 (prevMY s.year s.month).2; omega)
        (by have := daysInMonth_bounds (nextMY s.year s.month).1 (nextMY s.year s.month).2; omega)
      have hdn : dayNumber s = monthFirstDN s.year s.month + (s.day - 1) := rfl
      have hm := (isStart_weekly_iff s ⟨h0, h1, h2, h3⟩).mp hs
      refine ⟨key.1, ?_, by simp only [stepPeriod]; omega⟩
      rw [isStart_weekly_iff _ (by simpa [stepPeriod] using key.1)]
      simp only [stepPeriod]
      omega
  | monthly =>
      have hd1 := (isStart_monthly_iff s ⟨h0, h1, h2, h3⟩).mp hs
      have hnm := nextMY_month_range s.year s.month h0 h1
      have hbn := daysInMonth_bounds (nextMY s.year s.month).1 (nextMY s.year s.month).2
      have hnd := monthFirstDN_next s.year s.month h0 h1
      have hb := daysInMonth_bounds s.year s.month
      have hvstep : ValidDate (stepPeriod .monthly s) := by
        simp only [stepPeriod, ValidDate]
        exact ⟨hnm.1, hnm.2, by omega, by omega⟩
      refine ⟨hvstep, ?_, ?_⟩
      · rw [isStart_monthly_iff _ hvstep]
        simp [stepPeriod, hd1]
      · simp only [stepPeriod, dayNumber]
        omega


/-- The gap lemma: no bucket start lies strictly between a start and its step,
so any date whose day number falls in `[s, step s)` buckets to `s`. -/
theorem getPeriodStart_eq_of_between (p : AggregationPeriod) {s dt : Date}
    (hvs : ValidDate s) (hss : IsStart p s) (hvdt : ValidDate dt)
    (h1 : dayNumber s ≤ dayNumber dt) (h2 : dayNumber dt < dayNumber (stepPeriod p s)) :
    getPeriodStart dt p = s := by
  cases p with
  | daily =>
      obtain ⟨h0, hm1, hd1, hd2⟩ := hvs
      have key := mkDate_spec s.year s.month (s.day + 1) h0 hm1
        (by have := daysInMonth_bounds (prevMY s.year s.month).1 (prevMY s.year s.month).2; omega)
        (by have := daysInMonth_bounds (nextMY s.year s.month).1 (nextMY s.year s.month).2; omega)
      have hdns : dayNumber s = monthFirstDN s.year s.month + (s.day - 1) := rfl
      have hstep : dayNumber (stepPeriod .daily s) = dayNumber s + 1 := by
        simp only [stepPeriod]; omega
      rw [getPeriodStart_daily dt hvdt]
      exact dayNumber_injOn hvdt ⟨h0, hm1, hd1, hd2⟩ (by omega)
  | weekly =>
      obtain ⟨h0, hm1, hd1, hd2⟩ := hvs
      have key := mkDate_spec s.year s.month (s.day + 7) h0 hm1
        (by have := daysInMonth_bounds (prevMY s.year s.month).1 (prevMY s.year s.month).2; omega)
        (by have := daysInMonth_bounds (nextMY s.year s.month).1 (nextMY s.year s.month).2; omega)
      have hdns : dayNumber s = monthFirstDN s.year s.month + (s.day - 1) := rfl
      have hstep : dayNumber (stepPeriod .weekly s) = dayNumber s + 7 := by
        simp only [stepPeriod]; omega
      have hmod := (isStart_weekly_iff s ⟨h0, hm1, hd1, hd2⟩).mp hss
      have hw := weekly_start_spec dt hvdt
      exact dayNumber_injOn hw.1 ⟨h0, hm1, hd1, hd2⟩ (by omega)
  | monthly =>
      have hd1 := (isStart_monthly_iff s hvs).mp hss
      obtain ⟨h0, hm1, _, _⟩ := hvs
      have hnd := monthFirstDN_next s.year s.month h0 hm1
      have hdns : dayNumber s = monthFirstDN s.year s.month := by
        simp only [dayNumber, hd1]; omega
      have hstep : dayNumber (stepPeriod .monthly s) = monthFirstDN s.year s.month +
          daysInMonth s.year s.month := by
        simp only [stepPeriod, dayNumber, hd1]
        omega
      have hms : mstart (monthIndex s) = monthFirstDN s.year s.month :=
        mstart_monthIndex s ⟨h0, hm1, by omega, by omega⟩
      have hsucc : mstart (monthIndex s + 1) = monthFirstDN s.year s.month +
          daysInMonth s.year s.month := by
        have := mstart_succ (monthIndex s)
        have he : (monthIndex s) / 12 = s.year ∧ (monthIndex s) % 12 = s.month := by
          unfold monthIndex; omega
        rw [this, he.1, he.2, hms]
      have hmemdt := dayNumber_mem_month dt hvdt
      have hμ : monthIndex dt = monthIndex s := by
        refine mstart_interval_unique hmemdt ⟨?_, ?_⟩ <;> omega
      rw [monthly_start_spec dt hvdt]
      have hmdt : mstart (monthIndex dt) = monthFirstDN dt.year dt.month :=
        mstart_monthIndex dt hvdt
      have hym : dt.year = s.year ∧ dt.month = s.month := by
        obtain ⟨g0, g1, _, _⟩ := hvdt
        unfold monthIndex at hμ
        omega
      rw [hym.1, hym.2]
      cases s
      simp_all


/-- Loop invariant bundle: starting from a valid bucket start with sufficient
fuel, the loop emits exactly the starts it visits — all valid starts in range,
in strictly increasing order, consecutive ones one step apart, containing
every bucket start of the range. -/
theorem genPeriodsGo_mem (p : AggregationPeriod) (endD : Date) (fuel : Nat) (cur : Date)
    (hv : ValidDate cur) (hs : IsStart p cur)
    (hfuel : (dayNumber endD - dayNumber cur).toNat < fuel)
    (t : Date) (hvt : ValidDate t) (hst : IsStart p t)
    (h1 : dayNumber cur ≤ dayNumber t) (h2 : dayNumber t ≤ dayNumber endD) :
    t ∈ genPeriodsGo p endD fuel cur := by
  induction fuel generalizing cur with
  | zero => omega
  | succ n ih =>
      have hcur : dayNumber cur ≤ dayNumber endD := by omega
      simp only [genPeriodsGo, if_pos hcur]
      rcases eq_or_lt_of_le h1 with heq | hlt
      · have hct : cur = t := dayNumber_injOn hv hvt heq
        rw [← hct]
        exact List.mem_cons_self _ _
      · have hstep := stepPeriod_spec p cur hv hs
        have hnotbefore : dayNumber (stepPeriod p cur) ≤ dayNumber t := by
          by_contra hcon
          have heqq := getPeriodStart_eq_of_between p hv hs hvt (le_of_lt hlt) (by omega)
          rw [hst] at heqq
          have := congrArg dayNumber heqq
          omega
        exact List.mem_cons_of_mem _
          (ih (stepPeriod p cur) hstep.1 hstep.2.1 (by omega) hnotbefore)


theorem genPeriodsGo_forall (p : AggregationPeriod) (endD : Date) (fuel : Nat) (cur : Date)
    (hv : ValidDate cur) (hs : IsStart p cur) :
    ∀ t ∈ genPeriodsGo p endD fuel cur,
      ValidDate t ∧ IsStart p t ∧ dayNumber cur ≤ dayNumber t ∧ dayNumber t ≤ dayNumber endD := by
  induction fuel generalizing cur with
  | zero => simp [genPeriodsGo]
  | succ n ih =>
      intro t ht
      simp only [genPeriodsGo] at ht
      split_ifs at ht with hc
      · rcases List.mem_cons.mp ht with rfl | hmem
        · exact ⟨hv, hs, le_refl _, hc⟩
        · have hstep := stepPeriod_spec p cur hv hs
          have := ih (stepPeriod p cur) hstep.1 hstep.2.1 t hmem
          exact ⟨this.1, this.2.1, by omega, this.2.2.2⟩
      · simp at ht


/-- Consecutive emitted starts are exactly one step apart. -/
theorem genPeriodsGo_chain (p : AggregationPeriod) (endD : Date) (fuel : Nat) (cur : Date) :
    List.Chain' (fun a b => b = stepPeriod p a) (genPeriodsGo p endD fuel cur) := by
  induction fuel generalizing cur with
  | zero => simp [genPeriodsGo]
  | succ n ih =>
      simp only [genPeriodsGo]
      split_ifs with hc
      · refine List.chain'_cons'.mpr ⟨?_, ih (stepPeriod p cur)⟩
        intro y hy
        cases n with
        | zero => simp [genPeriodsGo] at hy
        | succ k =>
            simp only [genPeriodsGo] at hy
            split_ifs at hy with hc2
            · simp only [List.head?_cons, Option.mem_def, Option.some.injEq] at hy
              exact hy.symm
            · simp at hy
      · exact List.chain'_nil


/-- Emitted starts are strictly increasing. -/
theorem genPeriodsGo_pairwise (p : AggregationPeriod) (endD : Date) (fuel : Nat) (cur : Date)
    (hv : ValidDate cur) (hs : IsStart p cur) :
    List.Pairwise (fun a b => dayNumber a < dayNumber b) (genPeriodsGo p endD fuel cur) := by
  induction fuel generalizing cur with
  | zero => simp [genPeriodsGo]
  | succ n ih =>
      simp only [genPeriodsGo]
      split_ifs with hc
      · have hstep := stepPeriod_spec p cur hv hs
        refine List.pairwise_cons.mpr ⟨?_, ih (stepPeriod p cur) hstep.1 hstep.2.1⟩
        intro b hb
        have := genPeriodsGo_forall p endD n (stepPeriod p cur) hstep.1 hstep.2.1 b hb
        omega
      · exact List.Pairwise.nil


theorem genPeriodsGo_head (p : AggregationPeriod) (endD : Date) (fuel : Nat) (cur : Date)
    (hfuel : 0 < fuel) (hc : dayNumber cur ≤ dayNumber endD) :
    (genPeriodsGo p endD fuel cur).head? = some cur := by
  cases fuel with
  | zero => omega
  | succ n => simp [genPeriodsGo, hc]


/-- In a strictly increasing list, a member that bounds every element from
above is the last element. -/
theorem getLast_of_sorted_max {l : List Date} {e : Date} (hmem : e ∈ l)
    (hall : ∀ t ∈ l, dayNumber t ≤ dayNumber e)
    (hpw : List.Pairwise (fun a b => dayNumber a < dayNumber b) l) :
    l.getLast? = some e := by
  induction l with
  | nil => cases hmem
  | cons a l ih =>
      cases l with
      | nil =>
          simp only [List.mem_singleton] at hmem
          simp [hmem]
      | cons b l2 =>
          have hpw' := List.pairwise_cons.mp hpw
          have hea : e ≠ a := by
            intro hcon
            have hb : dayNumber a < dayNumber b := hpw'.1 b (by simp)
            have := hall b (by simp)
            rw [← hcon] at hb
            omega
          have hmem' : e ∈ b :: l2 := by
            rcases List.mem_cons.mp hmem with hcon | h
            · exact absurd hcon hea
            · exact h
          rw [List.getLast?_cons_cons]
          exact ih hmem' (fun t ht => hall t (List.mem_cons_of_mem _ ht)) hpw'.2


theorem alGet_map_update {α : Type} (m : List (String × α)) (k k' : String) (v : α) :
    alGet (m.map (fun e => if e.1 == k then (k, v) else e)) k' =
      if k' = k then (alGet m k).map (fun _ => v) else alGet m k' := by
  unfold alGet
  rw [List.find?_map]
  by_cases hk : k' = k
  · rw [hk, if_pos rfl]
    have hpred : ((fun (e : String × α) => e.1 == k) ∘ (fun e => if e.1 == k then (k, v) else e))
        = fun (e : String × α) => e.1 == k := by
      funext e
      by_cases h : e.1 = k <;> simp [h]
    rw [hpred]
    cases hfind : m.find? (fun e => e.1 == k) with
    | none => simp
    | some e0 =>
        have hp := List.find?_some hfind
        simp only [Option.map_some']
        simp [hp]
  · rw [if_neg hk]
    have hkk : (k == k') = false := by
      simp only [beq_eq_false_iff_ne, ne_eq]
      exact fun hc => hk hc.symm
    have hpred : ((fun (e : String × α) => e.1 == k') ∘ (fun e => if e.1 == k then (k, v) else e))
        = fun (e : String × α) => e.1 == k' := by
      funext e
      by_cases h : e.1 = k
      · have h2 : (e.1 == k') = false := by rw [h]; exact hkk
        simp [h, hkk, h2]
      · simp [h]
    rw [hpred]
    cases hfind : m.find? (fun e => e.1 == k') with
    | none => simp
    | some e0 =>
        have hp := List.find?_some hfind
        have h3 : e0.1 = k' := by simpa using hp
        have h4 : ¬ (e0.1 = k) := by rw [h3]; exact hk
        simp only [Option.map_some', Function.comp_apply]
        rw [if_neg (by simpa using h4)]


theorem alGet_isSome_iff_any {α : Type} (m : List (String × α)) (k : String) :
    (alGet m k).isSome = m.any (fun e => e.1 == k) := by
  induction m with
  | nil => rfl
  | cons e m ih =>
      unfold alGet at ih ⊢
      cases he : (e.1 == k) with
      | true =>
          rw [show List.find? (fun (x : String × α) => x.1 == k) (e :: m) = some e from
            List.find?_cons_of_pos _ he]
          simp [List.any_cons, he]
      | false =>
          rw [show List.find? (fun (x : String × α) => x.1 == k) (e :: m) =
              List.find? (fun (x : String × α) => x.1 == k) m from
            List.find?_cons_of_neg _ (by simp [he])]
          rw [List.any_cons, he]
          simpa using ih


/-- `Map.set` then `Map.get`. -/
theorem alGet_alSet {α : Type} (m : List (String × α)) (k k' : String) (v : α) :
    alGet (alSet m k v) k' = if k' = k then some v else alGet m k' := by
  unfold alSet
  by_cases hany : m.any (fun e => e.1 == k)
  · rw [if_pos hany, alGet_map_update]
    by_cases hk : k' = k
    · rw [if_pos hk, if_pos hk]
      have hsome : (alGet m k).isSome := by rw [alGet_isSome_iff_any]; exact hany
      obtain ⟨w, hw⟩ := Option.isSome_iff_exists.mp hsome
      rw [hw]
      rfl
    · rw [if_neg hk, if_neg hk]
  · rw [if_neg hany]
    unfold alGet
    rw [List.find?_append]
    by_cases hk : k' = k
    · rw [if_pos hk]
      have hnone : m.find? (fun e => e.1 == k') = none := by
        rw [List.find?_eq_none]
        intro x hx hc
        simp only [List.any_eq_true, not_exists] at hany
        rw [hk] at hc
        exact hany x ⟨hx, hc⟩
      rw [hnone]
      have hsingle : List.find? (fun (e : String × α) => e.1 == k') [(k, v)] = some (k, v) :=
        List.find?_cons_of_pos _ (by simpa using hk.symm)
      rw [hsingle]
      rfl
    · rw [if_neg hk]
      have hsingle : List.find? (fun (e : String × α) => e.1 == k') [(k, v)] = none := by
        rw [List.find?_eq_none]
        intro x hx hc
        simp only [List.mem_singleton] at hx
        rw [hx] at hc
        have hkk : k = k' := by simpa using hc
        exact hk hkk.symm
      rw [hsingle]
      simp


/-- One step of the grouping pass read back at any key. -/
theorem alGet_groupStep (m : List (String × ProductAggregation)) (o : OrderRecord)
    (pid : String) :
    alGet (groupStep m o) pid =
      if o.productId = pid then
        some (bumpPA ((alGet m pid).getD (initPA o)) o)
      else alGet m pid := by
  unfold groupStep
  rw [alGet_alSet]
  by_cases h : o.productId = pid
  · rw [if_pos h.symm, if_pos h, h]
  · rw [if_neg (fun hc => h hc.symm), if_neg h]


/-- The grouping fold, characterized per product: only the product's own
orders contribute, in order. -/
theorem foldl_groupStep_get (orders : List OrderRecord) (pid : String) :
    ∀ m, alGet (orders.foldl groupStep m) pid =
      (orders.filter (fun o => o.productId == pid)).foldl
        (fun acc o => some (bumpPA (acc.getD (initPA o)) o)) (alGet m pid) := by
  induction orders with
  | nil => intro m; rfl
  | cons o orders ih =>
      intro m
      simp only [List.foldl_cons, List.filter_cons]
      by_cases h : o.productId = pid
      · rw [if_pos (by simpa using h)]
        simp only [List.foldl_cons]
        rw [ih, alGet_groupStep, if_pos h]
      · rw [if_neg (by simpa using h)]
        rw [ih, alGet_groupStep, if_neg h]


theorem foldl_some_bump (l : List OrderRecord) (pa : ProductAggregation) :
    l.foldl (fun acc o => some (bumpPA (acc.getD (initPA o)) o)) (some pa) =
      some (l.foldl bumpPA pa) := by
  induction l generalizing pa with
  | nil => rfl
  | cons o l ih => simpa using ih (bumpPA pa o)


/-- Reading the grouping pass at a product key. -/
theorem groupOrders_get (orders : List OrderRecord) (pid : String) :
    alGet (groupOrders orders) pid =
      match orders.filter (fun o => o.productId == pid) with
      | [] => none
      | o :: rest => some (rest.foldl bumpPA (bumpPA (initPA o) o)) := by
  unfold groupOrders
  rw [foldl_groupStep_get orders pid []]
  cases hf : orders.filter (fun o => o.productId == pid) with
  | nil => rfl
  | cons o rest =>
      simp only [List.foldl_cons]
      rw [show (alGet ([] : List (String × ProductAggregation)) pid).getD (initPA o) = initPA o
        from rfl]
      exact foldl_some_bump rest (bumpPA (initPA o) o)


/-- `bumpPA` only touches the counters and the date range. -/
theorem foldl_bumpPA_const (l : List OrderRecord) (pa : ProductAggregation) :
    (l.foldl bumpPA pa).productId = pa.productId ∧
    (l.foldl bumpPA pa).productName = pa.productName ∧
    (l.foldl bumpPA pa).category = pa.category ∧
    (l.foldl bumpPA pa).data = pa.data := by
  induction l generalizing pa with
  | nil => exact ⟨rfl, rfl, rfl, rfl⟩
  | cons o l ih => simpa [bumpPA] using ih (bumpPA pa o)


theorem foldl_bumpPA_totalQuantity (l : List OrderRecord) (pa : ProductAggregation) :
    (l.foldl bumpPA pa).totalQuantity =
      pa.totalQuantity + (l.map (fun o => o.quantity)).sum := by
  induction l generalizing pa with
  | nil => simp
  | cons o l ih =>
      simp only [List.foldl_cons, List.map_cons, List.sum_cons]
      rw [ih (bumpPA pa o)]
      simp only [bumpPA]
      ring


/-- The folded date range: `firstOrderDate`/`lastOrderDate` are drawn from
the initial range or the folded orders, never shrink, and bound every folded
order's date. -/
theorem foldl_bumpPA_dates (l : List OrderRecord) (pa : ProductAggregation) :
    ((l.foldl bumpPA pa).firstOrderDate = pa.firstOrderDate ∨
      (l.foldl bumpPA pa).firstOrderDate ∈ l.map (fun o => o.date)) ∧
    ((l.foldl bumpPA pa).lastOrderDate = pa.lastOrderDate ∨
      (l.foldl bumpPA pa).lastOrderDate ∈ l.map (fun o => o.date)) ∧
    dayNumber (l.foldl bumpPA pa).firstOrderDate ≤ dayNumber pa.firstOrderDate ∧
    dayNumber pa.lastOrderDate ≤ dayNumber (l.foldl bumpPA pa).lastOrderDate ∧
    ∀ o ∈ l, dayNumber (l.foldl bumpPA pa).firstOrderDate ≤ dayNumber o.date ∧
      dayNumber o.date ≤ dayNumber (l.foldl bumpPA pa).lastOrderDate := by
  induction l generalizing pa with
  | nil => exact ⟨Or.inl rfl, Or.inl rfl, le_refl _, le_refl _, by simp⟩
  | cons o l ih =>
      have ihh := ih (bumpPA pa o)
      obtain ⟨hf, hl, hfle, hlle, hall⟩ := ihh
      have hbf : (bumpPA pa o).firstOrderDate = o.date ∨
          (bumpPA pa o).firstOrderDate = pa.firstOrderDate := by
        simp only [bumpPA]
        split_ifs <;> simp
      have hbl : (bumpPA pa o).lastOrderDate = o.date ∨
          (bumpPA pa o).lastOrderDate = pa.lastOrderDate := by
        simp only [bumpPA]
        split_ifs <;> simp
      have hbfle : dayNumber (bumpPA pa o).firstOrderDate ≤ dayNumber pa.firstOrderDate ∧
          dayNumber (bumpPA pa o).firstOrderDate ≤ dayNumber o.date := by
        simp only [bumpPA]
        split_ifs with hc <;> constructor <;> omega
      have hblle : dayNumber pa.lastOrderDate ≤ dayNumber (bumpPA pa o).lastOrderDate ∧
          dayNumber o.date ≤ dayNumber (bumpPA pa o).lastOrderDate := by
        simp only [bumpPA]
        split_ifs with hc <;> constructor <;> omega
      refine ⟨?_, ?_, ?_, ?_, ?_⟩
      · rcases hf with h | h
        · rw [List.foldl_cons, h]
          rcases hbf with h2 | h2
          · exact Or.inr (by rw [h2]; simp)
          · exact Or.inl h2
        · exact Or.inr (by simp only [List.map_cons]; exact List.mem_cons_of_mem _ h)
      · rcases hl with h | h
        · rw [List.foldl_cons, h]
          rcases hbl with h2 | h2
          · exact Or.inr (by rw [h2]; simp)
          · exact Or.inl h2
        · exact Or.inr (by simp only [List.map_cons]; exact List.mem_cons_of_mem _ h)
      · rw [List.foldl_cons]; omega
      · rw [List.foldl_cons]; omega
      · intro o2 ho2
        rcases List.mem_cons.mp ho2 with rfl | hmem
        · rw [List.foldl_cons]
          constructor <;> omega
        · have := hall o2 hmem
          rw [List.foldl_cons]
          exact this


theorem addOrderToPeriods_map_keys (m : List (Int × AggregatedData))
    (p : AggregationPeriod) (o : OrderRecord) :
    (addOrderToPeriods m p o).map Prod.fst = m.map Prod.fst := by
  unfold addOrderToPeriods
  rw [List.map_map]
  apply List.map_congr_left
  intro e he
  by_cases h : e.1 = dayNumber (getPeriodStart o.date p) <;> simp [h]


theorem addOrderToPeriods_map_periodStart (m : List (Int × AggregatedData))
    (p : AggregationPeriod) (o : OrderRecord) :
    (addOrderToPeriods m p o).map (fun e => e.2.periodStart) =
      m.map (fun e => e.2.periodStart) := by
  unfold addOrderToPeriods
  rw [List.map_map]
  apply List.map_congr_left
  intro e he
  by_cases h : e.1 = dayNumber (getPeriodStart o.date p) <;> simp [h]


theorem addOrderToPeriods_map_period (m : List (Int × AggregatedData))
    (p : AggregationPeriod) (o : OrderRecord) :
    (addOrderToPeriods m p o).map (fun e => e.2.period) = m.map (fun e => e.2.period) := by
  unfold addOrderToPeriods
  rw [List.map_map]
  apply List.map_congr_left
  intro e he
  by_cases h : e.1 = dayNumber (getPeriodStart o.date p) <;> simp [h]


theorem addOrderToPeriods_sum (m : List (Int × AggregatedData))
    (p : AggregationPeriod) (o : OrderRecord) :
    ((addOrderToPeriods m p o).map (fun e => e.2.totalQuantity)).sum =
      (m.map (fun e => e.2.totalQuantity)).sum +
        ((m.map Prod.fst).count (dayNumber (getPeriodStart o.date p)) : ℚ) * o.quantity := by
  induction m with
  | nil => simp [addOrderToPeriods]
  | cons e m ih =>
      unfold addOrderToPeriods at ih ⊢
      simp only [List.map_cons, List.sum_cons, List.count_cons] at ih ⊢
      by_cases h : e.1 = dayNumber (getPeriodStart o.date p)
      · simp only [beq_iff_eq] at ih ⊢
        rw [if_pos h, ih]
        split_ifs
        push_cast
        ring
      · simp only [beq_iff_eq] at ih ⊢
        rw [if_neg h, ih]
        split_ifs
        push_cast
        ring


theorem foldl_addOrder_map_keys (l : List OrderRecord) (p : AggregationPeriod)
    (m : List (Int × AggregatedData)) :
    ((l.foldl (fun acc o => addOrderToPeriods acc p o) m).map Prod.fst) = m.map Prod.fst := by
  induction l generalizing m with
  | nil => rfl
  | cons o l ih =>
      rw [List.foldl_cons, ih (addOrderToPeriods m p o), addOrderToPeriods_map_keys]


theorem foldl_addOrder_map_periodStart (l : List OrderRecord) (p : AggregationPeriod)
    (m : List (Int × AggregatedData)) :
    ((l.foldl (fun acc o => addOrderToPeriods acc p o) m).map (fun e => e.2.periodStart)) =
      m.map (fun e => e.2.periodStart) := by
  induction l generalizing m with
  | nil => rfl
  | cons o l ih =>
      rw [List.foldl_cons, ih (addOrderToPeriods m p o), addOrderToPeriods_map_periodStart]


theorem foldl_addOrder_map_period (l : List OrderRecord) (p : AggregationPeriod)
    (m : List (Int × AggregatedData)) :
    ((l.foldl (fun acc o => addOrderToPeriods acc p o) m).map (fun e => e.2.period)) =
      m.map (fun e => e.2.period) := by
  induction l generalizing m with
  | nil => rfl
  | cons o l ih =>
      rw [List.foldl_cons, ih (addOrderToPeriods m p o), addOrderToPeriods_map_period]


/-- Folding orders whose buckets are all present accumulates exactly the sum
of their quantities. -/
theorem foldl_addOrder_sum (l : List OrderRecord) (p : AggregationPeriod)
    (m : List (Int × AggregatedData)) (hnd : (m.map Prod.fst).Nodup)
    (hall : ∀ o ∈ l, dayNumber (getPeriodStart o.date p) ∈ m.map Prod.fst) :
    ((l.foldl (fun acc o => addOrderToPeriods acc p o) m).map
        (fun e => e.2.totalQuantity)).sum =
      (m.map (fun e => e.2.totalQuantity)).sum + (l.map (fun o => o.quantity)).sum := by
  induction l generalizing m with
  | nil => simp
  | cons o l ih =>
      have hkeys := addOrderToPeriods_map_keys m p o
      have hsum := addOrderToPeriods_sum m p o
      have hcount : (m.map Prod.fst).count (dayNumber (getPeriodStart o.date p)) = 1 :=
        List.count_eq_one_of_mem hnd (hall o (by simp))
      rw [List.foldl_cons,
        ih (addOrderToPeriods m p o) (by rw [hkeys]; exact hnd)
          (fun o2 ho2 => by rw [hkeys]; exact hall o2 (List.mem_cons_of_mem _ ho2)),
        hsum, hcount]
      simp only [List.map_cons, List.sum_cons]
      push_cast
      ring


theorem alGet_map_keyed {α β : Type} (l : List (String × α)) (f : String → α → β)
    (k : String) :
    alGet (l.map (fun e => (e.1, f e.1 e.2))) k = (alGet l k).map (f k) := by
  unfold alGet
  rw [List.find?_map]
  have hpred : ((fun (e : String × β) => e.1 == k) ∘ (fun (e : String × α) => (e.1, f e.1 e.2)))
      = fun (e : String × α) => e.1 == k := rfl
  rw [hpred]
  cases hfind : l.find? (fun e => e.1 == k) with
  | none => simp
  | some e0 =>
      have h1 : e0.1 = k := by simpa using List.find?_some hfind
      simp [h1]


theorem aggregateOrderData_get (orders : List OrderRecord) (p : AggregationPeriod)
    (pid : String) :
    alGet (aggregateOrderData orders p) pid =
      (alGet (groupOrders orders) pid).map
        (fun pa => { pa with data := computeProductData orders p pid pa }) := by
  unfold aggregateOrderData
  exact alGet_map_keyed (groupOrders orders)
    (fun k pa => { pa with data := computeProductData orders p k pa }) pid


/-- Sorting an already-sorted list changes nothing. -/
theorem insertByPeriod_of_le (a : AggregatedData) (l : List AggregatedData)
    (h : ∀ b ∈ l.head?, a.period ≤ b.period) : insertByPeriod a l = a :: l := by
  cases l with
  | nil => rfl
  | cons b l2 =>
      have hab : a.period ≤ b.period := h b rfl
      simp [insertByPeriod, hab]


theorem sortByPeriod_of_sorted {l : List AggregatedData}
    (h : l.Pairwise (fun a b => a.period ≤ b.period)) : sortByPeriod l = l := by
  induction l with
  | nil => rfl
  | cons a l ih =>
      have hp := List.pairwise_cons.mp h
      simp only [sortByPeriod]
      rw [ih hp.2]
      apply insertByPeriod_of_le
      intro b hb
      cases l with
      | nil => cases hb
      | cons c l2 =>
          simp only [List.head?_cons, Option.mem_def, Option.some.injEq] at hb
          rw [← hb]
          exact hp.1 c (by simp)


/-- The heart of the aggregation invariants: under the (always established)
preconditions that the product's date range is valid and bounds its orders,
the per-product bucket list enumerates exactly `generatePeriods` of the range,
and its quantities sum to the product's order quantities. -/
theorem computeProductData_core (orders : List OrderRecord) (p : AggregationPeriod)
    (pid : String) (pa : ProductAggregation)
    (hvfirst : ValidDate pa.firstOrderDate) (hvlast : ValidDate pa.lastOrderDate)
    (hfl : dayNumber pa.firstOrderDate ≤ dayNumber pa.lastOrderDate)
    (hvall : ∀ o ∈ orders.filter (fun o => o.productId == pid), ValidDate o.date)
    (hbounds : ∀ o ∈ orders.filter (fun o => o.productId == pid),
        dayNumber pa.firstOrderDate ≤ dayNumber o.date ∧
        dayNumber o.date ≤ dayNumber pa.lastOrderDate) :
    (computeProductData orders p pid pa).map (fun d => d.periodStart) =
        generatePeriods pa.firstOrderDate pa.lastOrderDate p ∧
    ((computeProductData orders p pid pa).map (fun d => d.totalQuantity)).sum =
        ((orders.filter (fun o => o.productId == pid)).map (fun o => o.quantity)).sum := by
  have hst := getPeriodStart_valid_le pa.firstOrderDate p hvfirst
  have hen := getPeriodStart_valid_le pa.lastOrderDate p hvlast
  have hisst := isStart_getPeriodStart pa.firstOrderDate p hvfirst
  have hmono := getPeriodStart_mono p hvfirst hvlast hfl
  have hfuel : (dayNumber (getPeriodStart pa.lastOrderDate p) -
      dayNumber (getPeriodStart pa.firstOrderDate p)).toNat <
      (dayNumber (getPeriodStart pa.lastOrderDate p) -
      dayNumber (getPeriodStart pa.firstOrderDate p)).toNat + 1 := Nat.lt_succ_self _
  -- facts about the generated period chain
  have hpairAP := genPeriodsGo_pairwise p (getPeriodStart pa.lastOrderDate p)
    ((dayNumber (getPeriodStart pa.lastOrderDate p) -
      dayNumber (getPeriodStart pa.firstOrderDate p)).toNat + 1)
    (getPeriodStart pa.firstOrderDate p) hst.1 hisst
  have hcover : ∀ o ∈ orders.filter (fun o => o.productId == pid),
      getPeriodStart o.date p ∈ generatePeriods pa.firstOrderDate pa.lastOrderDate p := by
    intro o ho
    have hvo := hvall o ho
    have hb := hbounds o ho
    have hto := getPeriodStart_valid_le o.date p hvo
    have hiso := isStart_getPeriodStart o.date p hvo
    exact genPeriodsGo_mem p (getPeriodStart pa.lastOrderDate p) _
      (getPeriodStart pa.firstOrderDate p) hst.1 hisst hfuel
      (getPeriodStart o.date p) hto.1 hiso
      (getPeriodStart_mono p hvfirst hvo hb.1)
      (getPeriodStart_mono p hvo hvlast hb.2)
  unfold computeProductData
  dsimp only
  set AP := generatePeriods pa.firstOrderDate pa.lastOrderDate p with hAP
  set F := orders.filter (fun o => o.productId == pid) with hF
  set init := initPeriodData AP pa.productId pa.productName with hinit
  set folded := F.foldl (fun m o => addOrderToPeriods m p o) init with hfolded
  set M := folded.map (fun e =>
    { e.2 with avgQuantityPerOrder :=
        if e.2.orderCount > 0 then e.2.totalQuantity / (e.2.orderCount : ℚ) else 0 }) with hM
  -- init shape
  have hinitkeys : init.map Prod.fst = AP.map dayNumber := by
    rw [hinit]
    unfold initPeriodData
    rw [List.map_map]
    rfl
  have hinitstart : init.map (fun e => e.2.periodStart) = AP := by
    rw [hinit]
    unfold initPeriodData
    rw [List.map_map]
    have hcomp : ((fun (e : Int × AggregatedData) => e.2.periodStart) ∘
        (fun pd => (dayNumber pd,
          ({ period := dayNumber pd, periodStart := pd, productId := pa.productId,
             productName := pa.productName, totalQuantity := 0, orderCount := 0,
             avgQuantityPerOrder := 0 } : AggregatedData)))) = id := rfl
    rw [hcomp, List.map_id]
  have hinitperiod : init.map (fun e => e.2.period) = AP.map dayNumber := by
    rw [hinit]
    unfold initPeriodData
    rw [List.map_map]
    rfl
  have hinitsum : (init.map (fun e => e.2.totalQuantity)).sum = 0 := by
    apply List.sum_eq_zero
    intro x hx
    rw [hinit] at hx
    unfold initPeriodData at hx
    rw [List.map_map] at hx
    obtain ⟨d, hd, hdx⟩ := List.mem_map.mp hx
    exact hdx.symm
  -- the AP day numbers are strictly increasing, so keys are nodup
  have hpairkeys : (AP.map dayNumber).Pairwise (fun a b => a < b) := by
    rw [List.pairwise_map]
    exact hpairAP
  have hnodup : (init.map Prod.fst).Nodup := by
    rw [hinitkeys]
    exact hpairkeys.imp ne_of_lt
  -- fold facts
  have hcover' : ∀ o ∈ F, dayNumber (getPeriodStart o.date p) ∈ init.map Prod.fst := by
    intro o ho
    rw [hinitkeys]
    exact List.mem_map_of_mem dayNumber (hcover o ho)
  have hfoldsum := foldl_addOrder_sum F p init hnodup hcover'
  rw [← hfolded, hinitsum] at hfoldsum
  have hfoldstart := foldl_addOrder_map_periodStart F p init
  rw [← hfolded, hinitstart] at hfoldstart
  have hfoldperiod := foldl_addOrder_map_period F p init
  rw [← hfolded, hinitperiod] at hfoldperiod
  -- M preserves periodStart, period, totalQuantity of folded
  have hMstart : M.map (fun d => d.periodStart) = AP := by
    rw [hM, List.map_map, ← hfoldstart]
    rfl
  have hMperiod : M.map (fun d => d.period) = AP.map dayNumber := by
    rw [hM, List.map_map, ← hfoldperiod]
    rfl
  have hMsum : (M.map (fun d => d.totalQuantity)).sum =
      (F.map (fun o => o.quantity)).sum := by
    rw [hM, List.map_map]
    rw [show ((fun (d : AggregatedData) => d.totalQuantity) ∘ (fun (e : Int × AggregatedData) =>
      { e.2 with avgQuantityPerOrder :=
          if e.2.orderCount > 0 then e.2.totalQuantity / (e.2.orderCount : ℚ) else 0 })) =
      fun (e : Int × AggregatedData) => e.2.totalQuantity from rfl]
    rw [hfoldsum]
    ring
  -- M is sorted by period, so the sort is the identity
  have hMpair : M.Pairwise (fun a b => a.period ≤ b.period) := by
    have h1 : (M.map (fun d => d.period)).Pairwise (fun a b => a < b) := by
      rw [hMperiod]
      exact hpairkeys
    have h2 := List.pairwise_map.mp h1
    exact h2.imp (fun hab => le_of_lt hab)
  rw [sortByPeriod_of_sorted hMpair]
  exact ⟨hMstart, hMsum⟩


/-- Stepping a bucket start advances by exactly one bucket width. -/
theorem stepPeriod_width (p : AggregationPeriod) (s : Date)
    (hv : ValidDate s) (hs : IsStart p s) : widthRel p s (stepPeriod p s) := by
  obtain ⟨h0, h1, h2, h3⟩ := hv
  cases p with
  | daily =>
      have key := mkDate_spec s.year s.month (s.day + 1) h0 h1
        (by have := daysInMonth_bounds (prevMY s.year s.month).1 (prevMY s.year s.month).2; omega)
        (by have := daysInMonth_bounds (nextMY s.year s.month).1 (nextMY s.year s.month).2; omega)
      have hdn : dayNumber s = monthFirstDN s.year s.month + (s.day - 1) := rfl
      simp only [widthRel, stepPeriod]
      omega
  | weekly =>
      have key := mkDate_spec s.year s.month (s.day + 7) h0 h1
        (by have := daysInMonth_bounds (prevMY s.year s.month).1 (prevMY s.year s.month).2; omega)
        (by have := daysInMonth_bounds (nextMY s.year s.month).1 (nextMY s.year s.month).2; omega)
      have hdn : dayNumber s = monthFirstDN s.year s.month + (s.day - 1) := rfl
      simp only [widthRel, stepPeriod]
      omega
  | monthly =>
      have hd1 := (isStart_monthly_iff s ⟨h0, h1, h2, h3⟩).mp hs
      simp only [widthRel, stepPeriod, monthIndex, nextMY]
      split_ifs with hc <;> simp_all <;> omega


/-- The emitted chain advances by exactly one bucket width at each step. -/
theorem genPeriodsGo_chain_width (p : AggregationPeriod) (endD : Date) (fuel : Nat)
    (cur : Date) (hv : ValidDate cur) (hs : IsStart p cur) :
    List.Chain' (widthRel p) (genPeriodsGo p endD fuel cur) := by
  induction fuel generalizing cur with
  | zero => simp [genPeriodsGo]
  | succ n ih =>
      simp only [genPeriodsGo]
      split_ifs with hc
      · have hstep := stepPeriod_spec p cur hv hs
        refine List.chain'_cons'.mpr ⟨?_, ih (stepPeriod p cur) hstep.1 hstep.2.1⟩
        intro y hy
        cases n with
        | zero => simp [genPeriodsGo] at hy
        | succ k =>
            simp only [genPeriodsGo] at hy
            split_ifs at hy with hc2
            · simp only [List.head?_cons, Option.mem_def, Option.some.injEq] at hy
              rw [← hy]
              exact stepPeriod_width p cur hv hs
            · simp at hy
      · exact List.chain'_nil


/-- What the grouping pass guarantees about each emitted product record. -/
theorem groupOrders_pa_facts (orders : List OrderRecord)
    (hv : ∀ o ∈ orders, ValidDate o.date) (pid : String) (pa : ProductAggregation)
    (hget : alGet (groupOrders orders) pid = some pa) :
    (∃ o0 rest, orders.filter (fun o => o.productId == pid) = o0 :: rest ∧
       pa.category = o0.category) ∧
    pa.totalQuantity =
      ((orders.filter (fun o => o.productId == pid)).map (fun o => o.quantity)).sum ∧
    ValidDate pa.firstOrderDate ∧ ValidDate pa.lastOrderDate ∧
    dayNumber pa.firstOrderDate ≤ dayNumber pa.lastOrderDate ∧
    ∀ o ∈ orders.filter (fun o => o.productId == pid),
      dayNumber pa.firstOrderDate ≤ dayNumber o.date ∧
        dayNumber o.date ≤ dayNumber pa.lastOrderDate := by
  rw [groupOrders_get] at hget
  cases hf : orders.filter (fun o => o.productId == pid) with
  | nil => rw [hf] at hget; cases hget
  | cons o0 rest =>
      rw [hf] at hget
      have hpa : pa = rest.foldl bumpPA (bumpPA (initPA o0) o0) := by
        injection hget with h
        exact h.symm
      have hpa0first : (bumpPA (initPA o0) o0).firstOrderDate = o0.date := by
        simp [bumpPA, initPA]
      have hpa0last : (bumpPA (initPA o0) o0).lastOrderDate = o0.date := by
        simp [bumpPA, initPA]
      have hconst := foldl_bumpPA_const rest (bumpPA (initPA o0) o0)
      have hdates := foldl_bumpPA_dates rest (bumpPA (initPA o0) o0)
      have hvcons : ∀ o ∈ o0 :: rest, ValidDate o.date := by
        intro o ho
        apply hv
        have hmem : o ∈ orders.filter (fun o => o.productId == pid) := by
          rw [hf]
          exact ho
        exact (List.mem_filter.mp hmem).1
      refine ⟨⟨o0, rest, rfl, ?_⟩, ?_, ?_, ?_, ?_, ?_⟩
      · rw [hpa, hconst.2.2.1]
        rfl
      · rw [hpa, foldl_bumpPA_totalQuantity]
        simp only [List.map_cons, List.sum_cons]
        have hq : (bumpPA (initPA o0) o0).totalQuantity = o0.quantity := by
          simp [bumpPA, initPA]
        rw [hq]
      · rcases hdates.1 with h | h
        · rw [hpa, h, hpa0first]
          exact hvcons o0 (by simp)
        · rw [hpa]
          obtain ⟨o2, ho2, ho2e⟩ := List.mem_map.mp h
          rw [← ho2e]
          exact hvcons o2 (List.mem_cons_of_mem _ ho2)
      · rcases hdates.2.1 with h | h
        · rw [hpa, h, hpa0last]
          exact hvcons o0 (by simp)
        · rw [hpa]
          obtain ⟨o2, ho2, ho2e⟩ := List.mem_map.mp h
          rw [← ho2e]
          exact hvcons o2 (List.mem_cons_of_mem _ ho2)
      · have h1 := hdates.2.2.1
        have h2 := hdates.2.2.2.1
        rw [hpa0first] at h1
        rw [hpa0last] at h2
        rw [hpa]
        omega
      · intro o ho
        rcases List.mem_cons.mp ho with rfl | hmem
        · have h1 := hdates.2.2.1
          have h2 := hdates.2.2.2.1
          rw [hpa0first] at h1
          rw [hpa0last] at h2
          rw [hpa]
          omega
        · have := hdates.2.2.2.2 o hmem
          rw [hpa]
          exact this


theorem aggregateOrderData_elim (orders : List OrderRecord) (p : AggregationPeriod)
    (pid : String) (pa : ProductAggregation)
    (hget : alGet (aggregateOrderData orders p) pid = some pa) :
    ∃ pa', alGet (groupOrders orders) pid = some pa' ∧
      pa = { pa' with data := computeProductData orders p pid pa' } := by
  rw [aggregateOrderData_get] at hget
  cases hga : alGet (groupOrders orders) pid with
  | none => rw [hga] at hget; cases hget
  | some pa' =>
      rw [hga] at hget
      simp only [Option.map_some'] at hget
      injection hget with h
      exact ⟨pa', rfl, h.symm⟩


/-- C1: Conservation — for every order list (of valid calendar dates) and
every bucket width, each product's bucket quantities sum to the total
quantity of that product's orders, which is also the `totalQuantity` field of
the product's series. -/
theorem conservation_of_aggregateOrderData (orders : List OrderRecord)
    (p : AggregationPeriod) (hv : ∀ o ∈ orders, ValidDate o.date)
    (pid : String) (pa : ProductAggregation)
    (hget : alGet (aggregateOrderData orders p) pid = some pa) :
    (pa.data.map (fun d => d.totalQuantity)).sum =
        ((orders.filter (fun o => o.productId == pid)).map (fun o => o.quantity)).sum ∧
      pa.totalQuantity =
        ((orders.filter (fun o => o.productId == pid)).map (fun o => o.quantity)).sum := by
  obtain ⟨pa', hga, hpaeq⟩ := aggregateOrderData_elim orders p pid pa hget
  have hfacts := groupOrders_pa_facts orders hv pid pa' hga
  have hvfilter : ∀ o ∈ orders.filter (fun o => o.productId == pid), ValidDate o.date :=
    fun o ho => hv o (List.mem_filter.mp ho).1
  have hcore := computeProductData_core orders p pid pa' hfacts.2.2.1 hfacts.2.2.2.1
    hfacts.2.2.2.2.1 hvfilter hfacts.2.2.2.2.2
  constructor
  · rw [hpaeq]
    exact hcore.2
  · rw [hpaeq]
    exact hfacts.2.1


/-- C2: Density — each product's series is the gap-free chain of bucket
starts from the bucket of its first order to the bucket of its last order:
consecutive starts differ by exactly one bucket width (1 day, 7 days, or one
calendar month) and are strictly increasing. -/
theorem density_of_aggregateOrderData (orders : List OrderRecord)
    (p : AggregationPeriod) (hv : ∀ o ∈ orders, ValidDate o.date)
    (pid : String) (pa : ProductAggregation)
    (hget : alGet (aggregateOrderData orders p) pid = some pa) :
    List.Chain' (fun a b => widthRel p a.periodStart b.periodStart) pa.data ∧
    List.Pairwise (fun a b => dayNumber a.periodStart < dayNumber b.periodStart) pa.data ∧
    (pa.data.head?.map (fun d => d.periodStart) =
      some (getPeriodStart pa.firstOrderDate p)) ∧
    (pa.data.getLast?.map (fun d => d.periodStart) =
      some (getPeriodStart pa.lastOrderDate p)) := by
  obtain ⟨pa', hga, hpaeq⟩ := aggregateOrderData_elim orders p pid pa hget
  have hfacts := groupOrders_pa_facts orders hv pid pa' hga
  have hvfilter : ∀ o ∈ orders.filter (fun o => o.productId == pid), ValidDate o.date :=
    fun o ho => hv o (List.mem_filter.mp ho).1
  have hvfirst := hfacts.2.2.1
  have hvlast := hfacts.2.2.2.1
  have hfl := hfacts.2.2.2.2.1
  have hcore := computeProductData_core orders p pid pa' hvfirst hvlast hfl hvfilter
    hfacts.2.2.2.2.2
  have hdata : pa.data = computeProductData orders p pid pa' := by rw [hpaeq]
  have hfirst : pa.firstOrderDate = pa'.firstOrderDate := by rw [hpaeq]
  have hlast : pa.lastOrderDate = pa'.lastOrderDate := by rw [hpaeq]
  have hstartmap : pa.data.map (fun d => d.periodStart) =
      generatePeriods pa'.firstOrderDate pa'.lastOrderDate p := by
    rw [hdata]
    exact hcore.1
  have hst := getPeriodStart_valid_le pa'.firstOrderDate p hvfirst
  have hen := getPeriodStart_valid_le pa'.lastOrderDate p hvlast
  have hisst := isStart_getPeriodStart pa'.firstOrderDate p hvfirst
  have hisen := isStart_getPeriodStart pa'.lastOrderDate p hvlast
  have hmono := getPeriodStart_mono p hvfirst hvlast hfl
  have hchain := genPeriodsGo_chain_width p (getPeriodStart pa'.lastOrderDate p)
    ((dayNumber (getPeriodStart pa'.lastOrderDate p) -
      dayNumber (getPeriodStart pa'.firstOrderDate p)).toNat + 1)
    (getPeriodStart pa'.firstOrderDate p) hst.1 hisst
  have hpair := genPeriodsGo_pairwise p (getPeriodStart pa'.lastOrderDate p)
    ((dayNumber (getPeriodStart pa'.lastOrderDate p) -
      dayNumber (getPeriodStart pa'.firstOrderDate p)).toNat + 1)
    (getPeriodStart pa'.firstOrderDate p) hst.1 hisst
  refine ⟨?_, ?_, ?_, ?_⟩
  · have : List.Chain' (widthRel p) (pa.data.map (fun d => d.periodStart)) := by
      rw [hstartmap]
      exact hchain
    exact (List.chain'_map _).mp this
  · have : List.Pairwise (fun a b => dayNumber a < dayNumber b)
        (pa.data.map (fun d => d.periodStart)) := by
      rw [hstartmap]
      exact hpair
    rw [List.pairwise_map] at this
    exact this
  · have hhead : (generatePeriods pa'.firstOrderDate pa'.lastOrderDate p).head? =
        some (getPeriodStart pa'.firstOrderDate p) :=
      genPeriodsGo_head p _ _ _ (Nat.succ_pos _) hmono
    rw [hfirst, ← List.head?_map, hstartmap, hhead]
  · have hmem : getPeriodStart pa'.lastOrderDate p ∈
        generatePeriods pa'.firstOrderDate pa'.lastOrderDate p :=
      genPeriodsGo_mem p _ _ _ hst.1 hisst (Nat.lt_succ_self _) _ hen.1 hisen hmono (le_refl _)
    have hall : ∀ t ∈ generatePeriods pa'.firstOrderDate pa'.lastOrderDate p,
        dayNumber t ≤ dayNumber (getPeriodStart pa'.lastOrderDate p) := by
      intro t ht
      exact (genPeriodsGo_forall p _ _ _ hst.1 hisst t ht).2.2.2
    have hlast2 : (generatePeriods pa'.firstOrderDate pa'.lastOrderDate p).getLast? =
        some (getPeriodStart pa'.lastOrderDate p) :=
      getLast_of_sorted_max hmem hall hpair
    rw [hlast, ← List.getLast?_map, hstartmap, hlast2]


/-- C9 (amended): the `category` of a `ProductSeries` is the category field
of the product's first order — whether or not that order has one. -/
theorem category_eq_first_order_category (orders : List OrderRecord)
    (p : AggregationPeriod) (pid : String) (pa : ProductAggregation)
    (hget : alGet (aggregateOrderData orders p) pid = some pa) :
    ∃ o0 rest, orders.filter (fun o => o.productId == pid) = o0 :: rest ∧
      pa.category = o0.category := by
  obtain ⟨pa', hga, hpaeq⟩ := aggregateOrderData_elim orders p pid pa hget
  rw [groupOrders_get] at hga
  cases hf : orders.filter (fun o => o.productId == pid) with
  | nil => rw [hf] at hga; cases hga
  | cons o0 rest =>
      rw [hf] at hga
      have hpa' : pa' = rest.foldl bumpPA (bumpPA (initPA o0) o0) := by
        injection hga with h
        exact h.symm
      refine ⟨o0, rest, rfl, ?_⟩
      rw [hpaeq]
      show pa'.category = o0.category
      rw [hpa', (foldl_bumpPA_const rest _).2.2.1]
      rfl


theorem conservation_of_aggregateOrderData_witness :
    (∀ o ∈ ([⟨⟨2024, 0, 3⟩, "p", "P", 5, none⟩,
        ⟨⟨2024, 0, 10⟩, "p", "P", 7, some "X"⟩] : List OrderRecord), ValidDate o.date) ∧
    (([(⟨19723, ⟨2024, 0, 1⟩, "p", "P", 5, 1, 5⟩ : AggregatedData),
        ⟨19730, ⟨2024, 0, 8⟩, "p", "P", 7, 1, 7⟩].map (fun d => d.totalQuantity)).sum =
      ((([⟨⟨2024, 0, 3⟩, "p", "P", 5, none⟩,
          ⟨⟨2024, 0, 10⟩, "p", "P", 7, some "X"⟩] : List OrderRecord).filter
            (fun o => o.productId == "p")).map (fun o => o.quantity)).sum ∧
      (12 : ℚ) =
      ((([⟨⟨2024, 0, 3⟩, "p", "P", 5, none⟩,
          ⟨⟨2024, 0, 10⟩, "p", "P", 7, some "X"⟩] : List OrderRecord).filter
            (fun o => o.productId == "p")).map (fun o => o.quantity)).sum) :=
  ⟨by decide,
    conservation_of_aggregateOrderData
      [⟨⟨2024, 0, 3⟩, "p", "P", 5, none⟩, ⟨⟨2024, 0, 10⟩, "p", "P", 7, some "X"⟩]
      .weekly (by decide) "p"
      ⟨"p", "P", none,
        [⟨19723, ⟨2024, 0, 1⟩, "p", "P", 5, 1, 5⟩, ⟨19730, ⟨2024, 0, 8⟩, "p", "P", 7, 1, 7⟩],
        2, 12, ⟨2024, 0, 3⟩, ⟨2024, 0, 10⟩⟩
      (by norm_num [aggregateOrderData, groupOrders, groupStep, alSet, alGet, bumpPA, initPA,
        computeProductData, generatePeriods, genPeriodsGo, initPeriodData, addOrderToPeriods,
        sortByPeriod, insertByPeriod, getPeriodStart, stepPeriod, mkDate, getDay, dayNumber,
        monthFirstDN, yShift, daysInMonth, leapDay, prevMY, nextMY, List.filter, List.find?,
        List.foldl])⟩


theorem density_of_aggregateOrderData_witness :
    (∀ o ∈ ([⟨⟨2024, 0, 31⟩, "m", "M", 3, none⟩,
        ⟨⟨2024, 2, 1⟩, "m", "M", 4, none⟩] : List OrderRecord), ValidDate o.date) ∧
    (List.Chain' (fun a b => widthRel .monthly a.periodStart b.periodStart)
        [(⟨19723, ⟨2024, 0, 1⟩, "m", "M", 3, 1, 3⟩ : AggregatedData),
          ⟨19754, ⟨2024, 1, 1⟩, "m", "M", 0, 0, 0⟩,
          ⟨19783, ⟨2024, 2, 1⟩, "m", "M", 4, 1, 4⟩] ∧
      List.Pairwise (fun a b => dayNumber a.periodStart < dayNumber b.periodStart)
        [(⟨19723, ⟨2024, 0, 1⟩, "m", "M", 3, 1, 3⟩ : AggregatedData),
          ⟨19754, ⟨2024, 1, 1⟩, "m", "M", 0, 0, 0⟩,
          ⟨19783, ⟨2024, 2, 1⟩, "m", "M", 4, 1, 4⟩] ∧
      (([(⟨19723, ⟨2024, 0, 1⟩, "m", "M", 3, 1, 3⟩ : AggregatedData),
          ⟨19754, ⟨2024, 1, 1⟩, "m", "M", 0, 0, 0⟩,
          ⟨19783, ⟨2024, 2, 1⟩, "m", "M", 4, 1, 4⟩].head?.map (fun d => d.periodStart)) =
        some (getPeriodStart ⟨2024, 0, 31⟩ .monthly)) ∧
      (([(⟨19723, ⟨2024, 0, 1⟩, "m", "M", 3, 1, 3⟩ : AggregatedData),
          ⟨19754, ⟨2024, 1, 1⟩, "m", "M", 0, 0, 0⟩,
          ⟨19783, ⟨2024, 2, 1⟩, "m", "M", 4, 1, 4⟩].getLast?.map (fun d => d.periodStart)) =
        some (getPeriodStart ⟨2024, 2, 1⟩ .monthly))) :=
  ⟨by decide,
    density_of_aggregateOrderData
      [⟨⟨2024, 0, 31⟩, "m", "M", 3, none⟩, ⟨⟨2024, 2, 1⟩, "m", "M", 4, none⟩]
      .monthly (by decide) "m"
      ⟨"m", "M", none,
        [⟨19723, ⟨2024, 0, 1⟩, "m", "M", 3, 1, 3⟩, ⟨19754, ⟨2024, 1, 1⟩, "m", "M", 0, 0, 0⟩,
          ⟨19783, ⟨2024, 2, 1⟩, "m", "M", 4, 1, 4⟩],
        2, 7, ⟨2024, 0, 31⟩, ⟨2024, 2, 1⟩⟩
      (by norm_num [aggregateOrderData, groupOrders, groupStep, alSet, alGet, bumpPA, initPA,
        computeProductData, generatePeriods, genPeriodsGo, initPeriodData, addOrderToPeriods,
        sortByPeriod, insertByPeriod, getPeriodStart, stepPeriod, mkDate, getDay, dayNumber,
        monthFirstDN, yShift, daysInMonth, leapDay, prevMY, nextMY, List.filter, List.find?,
        List.foldl])⟩


/-- C9 counterexample: with a product whose first order has no category and
whose second order has category `"X"`, the aggregation reports no category at
all, while the first non-null category seen is `"X"` — so `category` is not
"the first non-null category seen". -/
theorem category_first_non_null_counterexample :
    (alGet (aggregateOrderData
        [⟨⟨2024, 0, 1⟩, "p", "P", 1, none⟩, ⟨⟨2024, 0, 2⟩, "p", "P", 1, some "X"⟩] .daily)
        "p").map (fun pa => pa.category) = some none ∧
    firstNonNullCategory
        [⟨⟨2024, 0, 1⟩, "p", "P", 1, none⟩, ⟨⟨2024, 0, 2⟩, "p", "P", 1, some "X"⟩] "p" =
      some "X" := by
  constructor
  · norm_num [aggregateOrderData, groupOrders, groupStep, alSet, alGet, bumpPA, initPA,
      computeProductData, generatePeriods, genPeriodsGo, initPeriodData, addOrderToPeriods,
      sortByPeriod, insertByPeriod, getPeriodStart, stepPeriod, mkDate, getDay, dayNumber,
      monthFirstDN, yShift, daysInMonth, leapDay, prevMY, nextMY, List.filter, List.find?,
      List.foldl]
  · norm_num [firstNonNullCategory, List.filter, List.findSome?]


theorem category_eq_first_order_category_witness :
    ∃ o0 rest,
      ([⟨⟨2024, 0, 1⟩, "p", "P", 1, none⟩,
        ⟨⟨2024, 0, 2⟩, "p", "P", 1, some "X"⟩] : List OrderRecord).filter
          (fun o => o.productId == "p") = o0 :: rest ∧
      (⟨"p", "P", none,
        [⟨19723, ⟨2024, 0, 1⟩, "p", "P", 1, 1, 1⟩, ⟨19724, ⟨2024, 0, 2⟩, "p", "P", 1, 1, 1⟩],
        2, 2, ⟨2024, 0, 1⟩, ⟨2024, 0, 2⟩⟩ : ProductAggregation).category = o0.category :=
  category_eq_first_order_category
    [⟨⟨2024, 0, 1⟩, "p", "P", 1, none⟩, ⟨⟨2024, 0, 2⟩, "p", "P", 1, some "X"⟩] .daily "p"
    ⟨"p", "P", none,
      [⟨19723, ⟨2024, 0, 1⟩, "p", "P", 1, 1, 1⟩, ⟨19724, ⟨2024, 0, 2⟩, "p", "P", 1, 1, 1⟩],
      2, 2, ⟨2024, 0, 1⟩, ⟨2024, 0, 2⟩⟩
    (by norm_num [aggregateOrderData, groupOrders, groupStep, alSet, alGet, bumpPA, initPA,
      computeProductData, generatePeriods, genPeriodsGo, initPeriodData, addOrderToPeriods,
      sortByPeriod, insertByPeriod, getPeriodStart, stepPeriod, mkDate, getDay, dayNumber,
      monthFirstDN, yShift, daysInMonth, leapDay, prevMY, nextMY, List.filter, List.find?,
      List.foldl])


/-- C3: Trend classification — `stable` unless both `R² > 0.10` and
`|slope/mean| > 0.02` (with the code's `mean = 0` guard coinciding with the
`ℚ` convention `slope/0 = 0`), else the sign of the slope decides; and the
spec's instance: mean 100, slope 1, `R² = 0.5` is `stable`. -/
theorem trend_classification :
    (∀ slope rSquared avgValue : ℚ,
      determineTrend slope rSquared avgValue =
        if rSquared > 1 / 10 ∧ |slope / avgValue| > 1 / 50 then
          (if slope > 0 then .increasing else .decreasing)
        else .stable) ∧
    determineTrend 1 (1 / 2) 100 = .stable := by
  constructor
  · intro slope rSquared avgValue
    simp only [determineTrend]
    have hns : (if avgValue ≠ 0 then slope / avgValue else 0) = slope / avgValue := by
      by_cases ha : avgValue = 0
      · rw [ha]
        simp
      · simp [ha]
    rw [hns]
    have h2 : (0.1 : ℚ) = 1 / 10 := by norm_num
    have h3 : (0.02 : ℚ) = 1 / 50 := by norm_num
    rw [h2, h3]
    split_ifs <;> tauto
  · simp only [determineTrend]
    have habs : |(1 : ℚ) / 100| = 1 / 100 := abs_of_pos (by norm_num)
    have hne : ((100 : ℚ) ≠ 0) := by norm_num
    rw [if_pos hne]
    norm_num [habs]


theorem find_breakpoints (a b c d e f : ℚ) (df : Int) :
    (([((5 : Int), a), (10, b), (20, c), (30, d), (50, e), (100, f)]).find?
        (fun q => decide (df ≤ q.1))) =
      (if df ≤ 5 then some (5, a) else if df ≤ 10 then some (10, b)
       else if df ≤ 20 then some (20, c) else if df ≤ 30 then some (30, d)
       else if df ≤ 50 then some (50, e) else if df ≤ 100 then some (100, f) else none) := by
  by_cases h5 : df ≤ 5
  · simp [List.find?, h5]
  · by_cases h10 : df ≤ 10
    · simp [List.find?, h5, h10]
    · by_cases h20 : df ≤ 20
      · simp [List.find?, h5, h10, h20]
      · by_cases h30 : df ≤ 30
        · simp [List.find?, h5, h10, h20, h30]
        · by_cases h50 : df ≤ 50
          · simp [List.find?, h5, h10, h20, h30, h50]
          · by_cases h100 : df ≤ 100
            · simp [List.find?, h5, h10, h20, h30, h50, h100]
            · simp [List.find?, h5, h10, h20, h30, h50, h100]


/-- The source's scan over `Object.keys` equals the spec's
first-breakpoint-`≥ df` lookup, for every confidence level. -/
theorem getTCritical_eq_spec (confidence : ℚ) (df : Int) :
    getTCritical confidence df = tLookupSpec confidence df := by
  unfold getTCritical tLookupSpec
  by_cases h9 : confidence = 0.9
  · rw [if_pos h9, if_pos h9]
    simp only [T_ROW_90, T_INF_90]
    rw [find_breakpoints]
    split_ifs <;> rfl
  · by_cases h95 : confidence = 0.95
    · have h99 : ¬ (confidence = 0.99) := by rw [h95]; norm_num
      rw [if_neg h9, if_pos h95, if_neg h9, if_neg h99]
      simp only [T_ROW_95, T_INF_95]
      rw [find_breakpoints]
      split_ifs <;> rfl
    · by_cases h99 : confidence = 0.99
      · rw [if_neg h9, if_neg h95, if_pos h99, if_neg h9, if_pos h99]
        simp only [T_ROW_99, T_INF_99]
        rw [find_breakpoints]
        split_ifs <;> rfl
      · rw [if_neg h9, if_neg h95, if_neg h99, if_neg h9, if_neg h99]
        simp only [T_ROW_95, T_INF_95]
        rw [find_breakpoints]
        split_ifs <;> rfl


/-- Clamping the degrees of freedom to `≥ 1` does not change the lookup:
everything at or below the first breakpoint lands on the `df = 5` row. -/
theorem tLookupSpec_max_one (confidence : ℚ) (df : Int) :
    tLookupSpec confidence (max 1 df) = tLookupSpec confidence df := by
  unfold tLookupSpec
  have e5 : (1 ⊔ df ≤ 5) ↔ (df ≤ 5) := by omega
  have e10 : (1 ⊔ df ≤ 10) ↔ (df ≤ 10) := by omega
  have e20 : (1 ⊔ df ≤ 20) ↔ (df ≤ 20) := by omega
  have e30 : (1 ⊔ df ≤ 30) ↔ (df ≤ 30) := by omega
  have e50 : (1 ⊔ df ≤ 50) ↔ (df ≤ 50) := by omega
  have e100 : (1 ⊔ df ≤ 100) ↔ (df ≤ 100) := by omega
  simp only [e5, e10, e20, e30, e50, e100]


/-- C4: Confidence-interval construction — the interval is
`[max(0, forecast − t·se), forecast + t·se]` where `t` is the spec's table
lookup at `(confidenceLevel, df = n − 1)` (first breakpoint `≥ df`, else the
`∞` row); in particular at `n = 2`, level 0.95, the `df = 5` row's 2.571 is
used, not the `∞` row's 1.960. -/
theorem confidence_interval_construction (conf : ℚ)
    (_hc : conf = 0.9 ∨ conf = 0.95 ∨ conf = 0.99) :
    (∀ (f se : ℚ) (n : Int),
      calculateConfidenceInterval f se n conf =
        (max 0 (f - tLookupSpec conf (n - 1) * se), f + tLookupSpec conf (n - 1) * se)) ∧
    getTCritical 0.95 (2 - 1) = 2.571 := by
  constructor
  · intro f se n
    simp only [calculateConfidenceInterval]
    rw [getTCritical_eq_spec, tLookupSpec_max_one]
  · rw [getTCritical_eq_spec]
    unfold tLookupSpec
    norm_num


theorem confidence_interval_construction_witness :
    ((0.95 : ℚ) = 0.9 ∨ (0.95 : ℚ) = 0.95 ∨ (0.95 : ℚ) = 0.99) ∧
    calculateConfidenceInterval 15 5 2 0.95 =
      (max 0 (15 - tLookupSpec 0.95 (2 - 1) * 5), 15 + tLookupSpec 0.95 (2 - 1) * 5) :=
  ⟨Or.inr (Or.inl rfl),
    (confidence_interval_construction 0.95 (Or.inr (Or.inl rfl))).1 15 5 2⟩


/-- Pointwise comparison of the 90% and 99% critical values. -/
theorem tLookupSpec_90_le_99 (df : Int) : tLookupSpec 0.9 df ≤ tLookupSpec 0.99 df := by
  unfold tLookupSpec
  rw [if_pos (show (0.9 : ℚ) = 0.9 from rfl),
    if_neg (show ¬ ((0.99 : ℚ) = 0.9) by norm_num),
    if_pos (show (0.99 : ℚ) = 0.99 from rfl)]
  split_ifs <;> norm_num


/-- C6: CI monotonicity — for the same forecast, standard error and sample
size, the 99% interval contains the 90% interval. -/
theorem ci_monotone_in_confidence (f se : ℚ) (n : Int) (hse : 0 ≤ se) :
    (calculateConfidenceInterval f se n 0.99).1 ≤ (calculateConfidenceInterval f se n 0.9).1 ∧
    (calculateConfidenceInterval f se n 0.9).2 ≤ (calculateConfidenceInterval f se n 0.99).2 := by
  simp only [calculateConfidenceInterval]
  have ht : getTCritical 0.9 (max 1 (n - 1)) ≤ getTCritical 0.99 (max 1 (n - 1)) := by
    rw [getTCritical_eq_spec, getTCritical_eq_spec]
    exact tLookupSpec_90_le_99 _
  have hm : getTCritical 0.9 (max 1 (n - 1)) * se ≤ getTCritical 0.99 (max 1 (n - 1)) * se :=
    mul_le_mul_of_nonneg_right ht hse
  constructor
  · exact max_le_max (le_refl 0) (by linarith)
  · linarith


theorem ci_monotone_in_confidence_witness :
    (0 : ℚ) ≤ 5 ∧
    ((calculateConfidenceInterval 15 5 2 0.99).1 ≤ (calculateConfidenceInterval 15 5 2 0.9).1 ∧
     (calculateConfidenceInterval 15 5 2 0.9).2 ≤ (calculateConfidenceInterval 15 5 2 0.99).2) :=
  ⟨by norm_num, ci_monotone_in_confidence 15 5 2 (by norm_num)⟩


/-- C10: Implicit t-table fallback — any confidence level other than exactly
0.90, 0.95 or 0.99 is looked up with the 0.95 critical values, while the
projection's reported `confidenceLevel` field still carries `100 ×` the
requested level. -/
theorem tcritical_silent_fallback (conf : ℚ)
    (h1 : conf ≠ 0.9) (h2 : conf ≠ 0.95) (h3 : conf ≠ 0.99) :
    (∀ df : Int, getTCritical conf df = getTCritical 0.95 df) ∧
    (∀ (agg : ProductAggregation) (metr : ProductMetricsQ) (settings : ForecastSettings)
        (p : AggregationPeriod), settings.confidenceLevel = conf →
      (generateProductProjection agg metr settings p).confidenceLevel = 100 * conf) := by
  constructor
  · intro df
    unfold getTCritical
    rw [if_neg h1, if_neg h2, if_neg h3, if_neg (show ¬ ((0.95 : ℚ) = 0.9) by norm_num),
      if_pos (show (0.95 : ℚ) = 0.95 from rfl)]
  · intro agg metr settings p hcl
    show settings.confidenceLevel * 100 = 100 * conf
    rw [hcl]
    ring


theorem tcritical_silent_fallback_witness :
    ((0.8 : ℚ) ≠ 0.9 ∧ (0.8 : ℚ) ≠ 0.95 ∧ (0.8 : ℚ) ≠ 0.99) ∧
    getTCritical 0.8 1 = getTCritical 0.95 1 ∧
    (generateProductProjection
        ⟨"p", "P", none, [⟨19723, ⟨2024, 0, 1⟩, "p", "P", 5, 1, 5⟩], 1, 5,
          ⟨2024, 0, 1⟩, ⟨2024, 0, 1⟩⟩
        ⟨1⟩ ⟨.sma, .weeks 1, 3, 10, 7, 0.8⟩ .weekly).confidenceLevel = 100 * 0.8 :=
  ⟨⟨by norm_num, by norm_num, by norm_num⟩,
    (tcritical_silent_fallback 0.8 (by norm_num) (by norm_num) (by norm_num)).1 1,
    (tcritical_silent_fallback 0.8 (by norm_num) (by norm_num) (by norm_num)).2
      ⟨"p", "P", none, [⟨19723, ⟨2024, 0, 1⟩, "p", "P", 5, 1, 5⟩], 1, 5,
        ⟨2024, 0, 1⟩, ⟨2024, 0, 1⟩⟩
      ⟨1⟩ ⟨.sma, .weeks 1, 3, 10, 7, 0.8⟩ .weekly rfl⟩


theorem xVariance_pos (n : Nat) (h : 2 ≤ n) :
    0 < ((List.range n).map (fun j : Nat => ((j : ℚ) - ((n : ℚ) - 1) / 2) ^ 2)).sum := by
  have h0 : 0 ∈ List.range n := List.mem_range.mpr (by omega)
  have hmem : (((0 : Nat) : ℚ) - ((n : ℚ) - 1) / 2) ^ 2 ∈
      (List.range n).map (fun j : Nat => ((j : ℚ) - ((n : ℚ) - 1) / 2) ^ 2) :=
    List.mem_map_of_mem (fun j : Nat => ((j : ℚ) - ((n : ℚ) - 1) / 2) ^ 2) h0
  have hn : (2 : ℚ) ≤ (n : ℚ) := by exact_mod_cast h
  have hpos : 0 < (((0 : Nat) : ℚ) - ((n : ℚ) - 1) / 2) ^ 2 := by
    have hne : ((0 : Nat) : ℚ) - ((n : ℚ) - 1) / 2 ≠ 0 := by
      push_cast
      intro hc
      nlinarith
    positivity
  have hnn : ∀ x ∈ (List.range n).map (fun j : Nat => ((j : ℚ) - ((n : ℚ) - 1) / 2) ^ 2), 0 ≤ x := by
    intro x hx
    obtain ⟨j, _, rfl⟩ := List.mem_map.mp hx
    positivity
  exact lt_of_lt_of_le hpos (List.single_le_sum hnn _ hmem)


/-- C5 (amended): for `n ≥ 2` historical buckets the `linear_regression`
method forecasts the future indices `n, n+1, …`, flooring each forecast at 0,
and for `n ≥ 3` each forecast point's squared standard error is exactly the
spec's `residualSS/(n−2) · (1 + 1/n + (x − x̄)²/Σ(xᵢ − x̄)²)`, a well-defined
finite number.  The claim's totality for `n = 2` is false — see
`lr_standard_error_counterexample`. -/
theorem lr_totality (values : List ℚ) (ahead : Nat) (h2 : 2 ≤ values.length) :
    (linearRegressionForecast values ahead).forecasts =
      (List.range ahead).map
        (fun i => max 0 (predict (linearRegression values) ((values.length + i : Nat) : ℚ))) ∧
    (3 ≤ values.length →
      (linearRegressionForecast values ahead).standardErrorsSq =
        (List.range ahead).map (fun i => some (lrStdErrSqSpec values i))) := by
  constructor
  · simp only [linearRegressionForecast]
    rw [if_neg (by omega)]
  · intro h3
    simp only [linearRegressionForecast, lrStdErrSqSpec]
    rw [if_neg (by omega)]
    apply List.map_congr_left
    intro i _
    have hden : ((values.length : ℚ) - 2) ≠ 0 := by
      have : (3 : ℚ) ≤ (values.length : ℚ) := by exact_mod_cast h3
      intro hc
      linarith
    have hxv : ((List.range values.length).map
        (fun j : Nat => ((j : ℚ) - ((values.length : ℚ) - 1) / 2) ^ 2)).sum ≠ 0 :=
      (xVariance_pos values.length h2).ne'
    rw [fdivQ, if_neg hden, fdivQ, if_neg hxv]
    rfl


/-- C5 counterexample: at `n = 2` the per-point standard error divides by
`n − 2 = 0` (a non-finite JS value, modelled as `none`). -/
theorem lr_standard_error_counterexample :
    2 ≤ ([10, 20] : List ℚ).length ∧
    (linearRegressionForecast [10, 20] 1).standardErrorsSq = [none] := by
  constructor
  · decide
  · norm_num [linearRegressionForecast, fdivQ, List.range_succ]


theorem lr_totality_witness :
    2 ≤ ([1, 2, 4] : List ℚ).length ∧
    ((linearRegressionForecast [1, 2, 4] 1).forecasts =
      (List.range 1).map
        (fun i => max 0 (predict (linearRegression [1, 2, 4]) ((([1, 2, 4] : List ℚ).length + i : Nat) : ℚ))) ∧
    (3 ≤ ([1, 2, 4] : List ℚ).length →
      (linearRegressionForecast [1, 2, 4] 1).standardErrorsSq =
        (List.range 1).map (fun i => some (lrStdErrSqSpec [1, 2, 4] i)))) :=
  ⟨by decide, lr_totality [1, 2, 4] 1 (by decide)⟩


theorem generateFuturePeriods_length (d : Date) (k : Nat) (p : AggregationPeriod) :
    (generateFuturePeriods d k p).length = k := by
  simp [generateFuturePeriods]


theorem lrForecast_length (v : List ℚ) (k : Nat) :
    (linearRegressionForecast v k).forecasts.length = k := by
  simp only [linearRegressionForecast]
  split_ifs <;> simp


theorem map_demand_const (l : List Date) (c : ℚ) :
    (l.map (fun fp => (⟨fp, c, true⟩ : ProjectionPoint))).map (fun pt => pt.projectedDemand)
      = List.replicate l.length c := by
  rw [List.map_map]
  exact List.map_const' l c


/-- The projected demand column is the per-point `round2` of the method's raw
forecasts. -/
theorem proj_demands (agg : ProductAggregation) (metr : ProductMetricsQ)
    (settings : ForecastSettings) (p : AggregationPeriod) :
    (generateProductProjection agg metr settings p).projectedData.map
        (fun pt => pt.projectedDemand)
      = (unroundedForecasts agg settings p).map round2 := by
  rcases settings with ⟨m, tf, per, ssp, ltd, cl⟩
  cases m with
  | sma =>
    simp only [generateProductProjection, unroundedForecasts]
    rw [map_demand_const, generateFuturePeriods_length, List.map_replicate]
  | wma =>
    simp only [generateProductProjection, unroundedForecasts]
    rw [map_demand_const, generateFuturePeriods_length, List.map_replicate]
  | linear_regression =>
    simp only [generateProductProjection, unroundedForecasts]
    rw [List.map_map]
    have hsnd : ((generateFuturePeriods agg.lastOrderDate (timeframeToPeriods tf p) p).zip
        (linearRegressionForecast (agg.data.map (fun d => d.totalQuantity))
          (timeframeToPeriods tf p)).forecasts).map Prod.snd =
        (linearRegressionForecast (agg.data.map (fun d => d.totalQuantity))
          (timeframeToPeriods tf p)).forecasts := by
      apply List.map_snd_zip
      rw [lrForecast_length, generateFuturePeriods_length]
    calc ((generateFuturePeriods agg.lastOrderDate (timeframeToPeriods tf p) p).zip
          (linearRegressionForecast (agg.data.map (fun d => d.totalQuantity))
            (timeframeToPeriods tf p)).forecasts).map
          ((fun pt => pt.projectedDemand) ∘ (fun q => (⟨q.1, round2 q.2, true⟩ : ProjectionPoint)))
        = (((generateFuturePeriods agg.lastOrderDate (timeframeToPeriods tf p) p).zip
            (linearRegressionForecast (agg.data.map (fun d => d.totalQuantity))
              (timeframeToPeriods tf p)).forecasts).map Prod.snd).map round2 := by
          rw [List.map_map]
          apply List.map_congr_left
          intro q _
          rfl
      _ = _ := by rw [hsnd]


/-- C7 (amended): every quantity output of a `ProductProjection` is computed
from the per-point forecasts that were already rounded mid-computation —
`projectedData` carries `round2` of each raw forecast, and
`totalProjectedDemand`, `avgProjectedDemand`, `safetyStock`, `reorderPoint`
and `suggestedReorderQty` are all computed from those rounded values, not
from the unrounded forecasts.  (The claim's boundary-only rounding is false —
see `rounding_counterexample`.) -/
theorem generateProductProjection_rounding (agg : ProductAggregation)
    (metr : ProductMetricsQ) (settings : ForecastSettings) (p : AggregationPeriod) :
    (generateProductProjection agg metr settings p).projectedData.map
        (fun pt => pt.projectedDemand) = (unroundedForecasts agg settings p).map round2 ∧
    (generateProductProjection agg metr settings p).totalProjectedDemand =
      round2 (((unroundedForecasts agg settings p).map round2).sum) ∧
    (generateProductProjection agg metr settings p).avgProjectedDemand =
      round2 (if (unroundedForecasts agg settings p).length > 0
        then ((unroundedForecasts agg settings p).map round2).sum /
          ((unroundedForecasts agg settings p).length : ℚ)
        else 0) ∧
    (generateProductProjection agg metr settings p).safetyStock =
      ⌈(if (unroundedForecasts agg settings p).length > 0
        then ((unroundedForecasts agg settings p).map round2).sum /
          ((unroundedForecasts agg settings p).length : ℚ)
        else 0) * (settings.safetyStockPercent / 100)⌉ ∧
    (generateProductProjection agg metr settings p).reorderPoint =
      ⌈metr.avgDailyDemand * settings.leadTimeDays +
        ((generateProductProjection agg metr settings p).safetyStock : ℚ)⌉ ∧
    (generateProductProjection agg metr settings p).suggestedReorderQty =
      ⌈((unroundedForecasts agg settings p).map round2).sum +
        ((generateProductProjection agg metr settings p).safetyStock : ℚ)⌉ := by
  have hd := proj_demands agg metr settings p
  have hlen : (generateProductProjection agg metr settings p).projectedData.length =
      (unroundedForecasts agg settings p).length := by
    have h := congrArg List.length hd
    simpa using h
  refine ⟨hd, ?_, ?_, ?_, ?_, ?_⟩
  · show round2 (((generateProductProjection agg metr settings p).projectedData.map
        (fun pt => pt.projectedDemand)).sum) = _
    rw [hd]
  · show round2 (if (generateProductProjection agg metr settings p).projectedData.length > 0
        then (((generateProductProjection agg metr settings p).projectedData.map
            (fun pt => pt.projectedDemand)).sum) /
          (((generateProductProjection agg metr settings p).projectedData.length : Nat) : ℚ)
        else 0) = _
    simp only [hd, hlen]
  · show (⌈(if (generateProductProjection agg metr settings p).projectedData.length > 0
        then (((generateProductProjection agg metr settings p).projectedData.map
            (fun pt => pt.projectedDemand)).sum) /
          (((generateProductProjection agg metr settings p).projectedData.length : Nat) : ℚ)
        else 0) * (settings.safetyStockPercent / 100)⌉ : Int) = _
    simp only [hd, hlen]
  · rfl
  · show (⌈(((generateProductProjection agg metr settings p).projectedData.map
        (fun pt => pt.projectedDemand)).sum) +
        (((generateProductProjection agg metr settings p).safetyStock : Int) : ℚ)⌉ : Int) = _
    simp only [hd]


/-- C7 counterexample: a single weekly bucket of quantity `1.003` projected
two periods ahead by SMA — the code's `totalProjectedDemand` is
`round2(round2(1.003) + round2(1.003)) = 2`, while rounding only at the
boundary would give `round2(1.003 + 1.003) = 2.01`. -/
theorem rounding_counterexample :
    (generateProductProjection
        ⟨"p", "P", none, [⟨19723, ⟨2024, 0, 1⟩, "p", "P", 1003 / 1000, 1, 1003 / 1000⟩], 1,
          1003 / 1000, ⟨2024, 0, 1⟩, ⟨2024, 0, 1⟩⟩
        ⟨0⟩ ⟨.sma, .weeks 2, 3, 10, 7, 0.95⟩ .weekly).totalProjectedDemand ≠
      round2 ((unroundedForecasts
        ⟨"p", "P", none, [⟨19723, ⟨2024, 0, 1⟩, "p", "P", 1003 / 1000, 1, 1003 / 1000⟩], 1,
          1003 / 1000, ⟨2024, 0, 1⟩, ⟨2024, 0, 1⟩⟩
        ⟨.sma, .weeks 2, 3, 10, 7, 0.95⟩ .weekly).sum) := by
  have hd := proj_demands
    ⟨"p", "P", none, [⟨19723, ⟨2024, 0, 1⟩, "p", "P", 1003 / 1000, 1, 1003 / 1000⟩], 1,
      1003 / 1000, ⟨2024, 0, 1⟩, ⟨2024, 0, 1⟩⟩
    ⟨0⟩ ⟨.sma, .weeks 2, 3, 10, 7, 0.95⟩ .weekly
  have h1 : (generateProductProjection
      ⟨"p", "P", none, [⟨19723, ⟨2024, 0, 1⟩, "p", "P", 1003 / 1000, 1, 1003 / 1000⟩], 1,
        1003 / 1000, ⟨2024, 0, 1⟩, ⟨2024, 0, 1⟩⟩
      ⟨0⟩ ⟨.sma, .weeks 2, 3, 10, 7, 0.95⟩ .weekly).totalProjectedDemand =
      round2 (((unroundedForecasts
        ⟨"p", "P", none, [⟨19723, ⟨2024, 0, 1⟩, "p", "P", 1003 / 1000, 1, 1003 / 1000⟩], 1,
          1003 / 1000, ⟨2024, 0, 1⟩, ⟨2024, 0, 1⟩⟩
        ⟨.sma, .weeks 2, 3, 10, 7, 0.95⟩ .weekly).map round2).sum) := by
    show round2 (((generateProductProjection
      ⟨"p", "P", none, [⟨19723, ⟨2024, 0, 1⟩, "p", "P", 1003 / 1000, 1, 1003 / 1000⟩], 1,
        1003 / 1000, ⟨2024, 0, 1⟩, ⟨2024, 0, 1⟩⟩
      ⟨0⟩ ⟨.sma, .weeks 2, 3, 10, 7, 0.95⟩ .weekly).projectedData.map
        (fun pt => pt.projectedDemand)).sum) = _
    rw [hd]
  rw [h1]
  norm_num [unroundedForecasts, simpleMovingAverage, sliceLast, mean, timeframeToPeriods,
    getPeriodsPerWeek, round2, fdivQ, List.replicate]




/-- A series with zero variance is constant at its mean. -/
theorem variance_eq_zero_forall (l : List ℚ) (hv : variance l = 0) :
    ∀ x ∈ l, x = mean l := by
  intro x hx
  by_cases h2 : l.length < 2
  · rcases l with _ | ⟨a, _ | ⟨b, t⟩⟩
    · cases hx
    · have hxa : x = a := by simpa using hx
      subst hxa
      norm_num [mean]
    · simp at h2
      omega
  · have hS : ((l.map (fun v => (v - mean l) ^ 2)).sum) = 0 := by
      have hne : ((l.length : ℚ) - 1) ≠ 0 := by
        have : (2 : ℚ) ≤ (l.length : ℚ) := by exact_mod_cast (by omega : 2 ≤ l.length)
        intro hc
        linarith
      simp only [variance] at hv
      rw [if_neg h2] at hv
      rcases div_eq_zero_iff.mp hv with h | h
      · exact h
      · exact absurd h hne
    have hmem : (x - mean l) ^ 2 ∈ l.map (fun v => (v - mean l) ^ 2) :=
      List.mem_map_of_mem (fun v => (v - mean l) ^ 2) hx
    have hnn : ∀ y ∈ l.map (fun v => (v - mean l) ^ 2), 0 ≤ y := by
      intro y hy
      obtain ⟨v, _, rfl⟩ := List.mem_map.mp hy
      positivity
    have hle : (x - mean l) ^ 2 ≤ 0 := hS ▸ List.single_le_sum hnn _ hmem
    have h0 : (x - mean l) ^ 2 = 0 := le_antisymm hle (by positivity)
    have := sq_eq_zero_iff.mp h0
    linarith


/-- A constant series has variance zero. -/
theorem variance_of_const (l : List ℚ) (c : ℚ) (hc : ∀ x ∈ l, x = c) :
    variance l = 0 := by
  unfold variance
  split_ifs with h
  · rfl
  · have hlen : l.length ≠ 0 := by omega
    have hmean : mean l = c := by
      unfold mean
      rw [if_neg hlen, List.sum_eq_card_nsmul l c hc, nsmul_eq_mul]
      rw [mul_comm, mul_div_assoc, div_self (by exact_mod_cast hlen), mul_one]
    have hzero : (l.map (fun v => (v - mean l) ^ 2)).sum = 0 := by
      apply List.sum_eq_zero
      intro y hy
      obtain ⟨v, hv, rfl⟩ := List.mem_map.mp hy
      rw [hmean, hc v hv]
      ring
    rw [hzero, zero_div]


theorem mem_sliceLast (l : List ℚ) (n : Nat) (x : ℚ) (hx : x ∈ sliceLast l n) : x ∈ l := by
  unfold sliceLast at hx
  split_ifs at hx
  · exact hx
  · exact List.drop_subset _ _ hx


theorem sliceLast_length_pos (l : List ℚ) (n : Nat) (hn : 1 ≤ n) (hl : 1 ≤ l.length) :
    1 ≤ (sliceLast l n).length := by
  unfold sliceLast
  rw [if_neg (by omega), List.length_drop]
  omega


theorem zip_replicate_mul_sum (c : ℚ) (ws : List ℚ) (m : Nat) (hw : ws.length = m) :
    (((List.replicate m c).zip ws).map (fun q => q.1 * q.2)).sum = c * ws.sum := by
  subst hw
  induction ws with
  | nil => simp
  | cons w t ih =>
    simp only [List.length_cons, List.replicate_succ, List.zip_cons_cons, List.map_cons,
      List.sum_cons, ih]
    ring


theorem zip_replicate_sq_sum (c : ℚ) (ws : List ℚ) (m : Nat) (_ : ws.length = m) :
    (((List.replicate m c).zip ws).map (fun q => q.2 * (q.1 - c) ^ 2)).sum = 0 := by
  apply List.sum_eq_zero
  intro y hy
  obtain ⟨q, hq, rfl⟩ := List.mem_map.mp hy
  have h1 : q.1 = c := List.eq_of_mem_replicate (List.of_mem_zip hq).1
  rw [h1]
  ring


theorem weights_sum_pos (m : Nat) (hm : 1 ≤ m) :
    0 < ((List.range m).map (fun i : Nat => ((i : ℚ) + 1))).sum := by
  have h0 : 0 ∈ List.range m := List.mem_range.mpr (by omega)
  have hmem := List.mem_map_of_mem (fun i : Nat => ((i : ℚ) + 1)) h0
  have hnn : ∀ x ∈ (List.range m).map (fun i : Nat => ((i : ℚ) + 1)), 0 ≤ x := by
    intro x hx
    obtain ⟨i, _, rfl⟩ := List.mem_map.mp hx
    positivity
  have h1 := List.single_le_sum hnn _ hmem
  have h2 : (0 : ℚ) < ((0 : Nat) : ℚ) + 1 := by norm_num
  exact lt_of_lt_of_le h2 h1


/-- The SMA of a constant series reports a zero (squared) standard error. -/
theorem sma_const (values : List ℚ) (periods : Nat) (hp : 1 ≤ periods)
    (hc : ∀ x ∈ values, x = mean values) :
    (simpleMovingAverage values periods).standardErrorSq = some 0 := by
  unfold simpleMovingAverage
  split_ifs with h
  · rfl
  · show fdivQ (variance (sliceLast values (min periods values.length)))
      ((min periods values.length : Nat) : ℚ) = some 0
    have hvr : variance (sliceLast values (min periods values.length)) = 0 :=
      variance_of_const _ (mean values) (fun x hx => hc x (mem_sliceLast _ _ _ hx))
    have hne : ((min periods values.length : Nat) : ℚ) ≠ 0 :=
      Nat.cast_ne_zero.mpr (by omega)
    rw [hvr]
    simp only [fdivQ]
    rw [if_neg hne, zero_div]


/-- The WMA of a constant series reports a zero (squared) standard error. -/
theorem wma_const (values : List ℚ) (periods : Nat) (hp : 1 ≤ periods)
    (hc : ∀ x ∈ values, x = mean values) :
    (weightedMovingAverage values periods).standardErrorSq = some 0 := by
  simp only [weightedMovingAverage]
  split_ifs with h
  · rfl
  · obtain ⟨m, hm⟩ : ∃ m, sliceLast values (min periods values.length) =
        List.replicate m (mean values) :=
      ⟨(sliceLast values (min periods values.length)).length,
        List.eq_replicate_of_mem (fun x hx => hc x (mem_sliceLast _ _ _ hx))⟩
    have hm1 : 1 ≤ m := by
      have hlm := congrArg List.length hm
      rw [List.length_replicate] at hlm
      have hsl := sliceLast_length_pos values (min periods values.length) (by omega) (by omega)
      omega
    show fdivQ _ _ = some 0
    rw [hm]
    simp only [List.length_replicate]
    have hW := weights_sum_pos m hm1
    have hne : ((min periods values.length : Nat) : ℚ) ≠ 0 :=
      Nat.cast_ne_zero.mpr (by omega)
    rw [zip_replicate_mul_sum (mean values) _ m (by simp), mul_div_assoc,
      div_self hW.ne', mul_one, zip_replicate_sq_sum (mean values) _ m (by simp), zero_div]
    simp only [fdivQ]
    rw [if_neg hne, zero_div]


/-- With zero variance the outlier scan returns no outliers. -/
theorem detectOutliers_zero_var (data : List (Date × ℚ)) (θ : ℚ)
    (hv : variance (data.map (fun d => d.2)) = 0) :
    detectOutliers data θ = [] := by
  simp only [detectOutliers]
  rw [if_pos hv]


/-- C8: zero-standard-deviation guard — for a series of bucket quantities
with standard deviation 0, the outlier list is empty and both the SMA and
the WMA (squared) standard errors are `some 0` (in particular `some`, i.e.
a finite value: no division by zero occurs). -/
theorem zero_stddev_guard (data : List (Date × ℚ)) (θ : ℚ) (periods : Nat)
    (hv : variance (data.map (fun d => d.2)) = 0) (hp : 1 ≤ periods) :
    detectOutliers data θ = [] ∧
    (simpleMovingAverage (data.map (fun d => d.2)) periods).standardErrorSq = some 0 ∧
    (weightedMovingAverage (data.map (fun d => d.2)) periods).standardErrorSq = some 0 :=
  ⟨detectOutliers_zero_var data θ hv,
    sma_const _ periods hp (variance_eq_zero_forall _ hv),
    wma_const _ periods hp (variance_eq_zero_forall _ hv)⟩


theorem zero_stddev_guard_witness :
    (variance (([(⟨2024, 0, 1⟩, 5), (⟨2024, 0, 8⟩, 5)] : List (Date × ℚ)).map (fun d => d.2)) = 0 ∧
      (1 : Nat) ≤ 3) ∧
    (detectOutliers [(⟨2024, 0, 1⟩, 5), (⟨2024, 0, 8⟩, 5)] 3 = [] ∧
      (simpleMovingAverage
        (([(⟨2024, 0, 1⟩, 5), (⟨2024, 0, 8⟩, 5)] : List (Date × ℚ)).map (fun d => d.2))
        3).standardErrorSq = some 0 ∧
      (weightedMovingAverage
        (([(⟨2024, 0, 1⟩, 5), (⟨2024, 0, 8⟩, 5)] : List (Date × ℚ)).map (fun d => d.2))
        3).standardErrorSq = some 0) :=
  ⟨⟨by norm_num [variance, mean], by norm_num⟩,
    zero_stddev_guard [(⟨2024, 0, 1⟩, 5), (⟨2024, 0, 8⟩, 5)] 3 3
      (by norm_num [variance, mean]) (by norm_num)⟩

end InvProj
